import Mathlib

/-!
Verification of the configuration-merging utility
(`tools/accuracy_checker/.../config/config_reader.py`) and the formula
recognition demo (`demos/formula_recognition_demo/python/formula_recognition_demo.py`).

Python dictionaries are embedded as association lists `List (String × Value)`
with first-occurrence lookup; Python's `None`, strings, booleans, integers,
lists, dictionaries and `pathlib.Path` objects are the constructors of `Value`.
-/

set_option autoImplicit false

namespace OMZ

/-- A `pathlib.Path`: an absolute flag plus the list of components. -/
structure PPath where
  abs : Bool
  comps : List String
  deriving DecidableEq, Repr

/-- `pathlib` `/` operator: if the right operand is absolute it wins,
otherwise components are concatenated. -/
def PPath.join (p q : PPath) : PPath :=
  if q.abs then q else ⟨p.abs, p.comps ++ q.comps⟩

/-- `Path.parent`: drop the last component. -/
def PPath.parent (p : PPath) : PPath := ⟨p.abs, p.comps.dropLast⟩

/-- `Path(s)` for a string `s`: leading `/` means absolute; empty segments
are dropped. -/
def parsePPath (s : String) : PPath :=
  ⟨s.startsWith "/", (s.splitOn "/").filter (fun c => c ≠ "")⟩

/-- A Python value as it appears in the parsed YAML configs: `None`, strings,
booleans, integers, lists, dictionaries (association lists in insertion
order) and `pathlib.Path` objects. -/
inductive Value where
  | vnone : Value
  | vstr : String → Value
  | vbool : Bool → Value
  | vint : Int → Value
  | vpath : PPath → Value
  | vlist : List Value → Value
  | vdict : List (String × Value) → Value
  deriving Repr

/-- A Python dictionary with string keys (insertion order preserved). -/
abbrev Entry := List (String × Value)

mutual

/-- Decidable equality on values, written out because the nested `List`
occurrences prevent automatic derivation. -/
def Value.decEq : (a b : Value) → Decidable (a = b)
  | .vnone, .vnone => .isTrue rfl
  | .vstr a, .vstr b =>
    if h : a = b then .isTrue (by rw [h])
    else .isFalse (by intro he; cases he; exact h rfl)
  | .vbool a, .vbool b =>
    if h : a = b then .isTrue (by rw [h])
    else .isFalse (by intro he; cases he; exact h rfl)
  | .vint a, .vint b =>
    if h : a = b then .isTrue (by rw [h])
    else .isFalse (by intro he; cases he; exact h rfl)
  | .vpath a, .vpath b =>
    if h : a = b then .isTrue (by rw [h])
    else .isFalse (by intro he; cases he; exact h rfl)
  | .vlist a, .vlist b =>
    match Value.decEqList a b with
    | .isTrue h => .isTrue (by rw [h])
    | .isFalse h => .isFalse (by intro he; cases he; exact h rfl)
  | .vdict a, .vdict b =>
    match Value.decEqDict a b with
    | .isTrue h => .isTrue (by rw [h])
    | .isFalse h => .isFalse (by intro he; cases he; exact h rfl)
  | .vnone, .vstr _ => .isFalse nofun
  | .vnone, .vbool _ => .isFalse nofun
  | .vnone, .vint _ => .isFalse nofun
  | .vnone, .vpath _ => .isFalse nofun
  | .vnone, .vlist _ => .isFalse nofun
  | .vnone, .vdict _ => .isFalse nofun
  | .vstr _, .vnone => .isFalse nofun
  | .vstr _, .vbool _ => .isFalse nofun
  | .vstr _, .vint _ => .isFalse nofun
  | .vstr _, .vpath _ => .isFalse nofun
  | .vstr _, .vlist _ => .isFalse nofun
  | .vstr _, .vdict _ => .isFalse nofun
  | .vbool _, .vnone => .isFalse nofun
  | .vbool _, .vstr _ => .isFalse nofun
  | .vbool _, .vint _ => .isFalse nofun
  | .vbool _, .vpath _ => .isFalse nofun
  | .vbool _, .vlist _ => .isFalse nofun
  | .vbool _, .vdict _ => .isFalse nofun
  | .vint _, .vnone => .isFalse nofun
  | .vint _, .vstr _ => .isFalse nofun
  | .vint _, .vbool _ => .isFalse nofun
  | .vint _, .vpath _ => .isFalse nofun
  | .vint _, .vlist _ => .isFalse nofun
  | .vint _, .vdict _ => .isFalse nofun
  | .vpath _, .vnone => .isFalse nofun
  | .vpath _, .vstr _ => .isFalse nofun
  | .vpath _, .vbool _ => .isFalse nofun
  | .vpath _, .vint _ => .isFalse nofun
  | .vpath _, .vlist _ => .isFalse nofun
  | .vpath _, .vdict _ => .isFalse nofun
  | .vlist _, .vnone => .isFalse nofun
  | .vlist _, .vstr _ => .isFalse nofun
  | .vlist _, .vbool _ => .isFalse nofun
  | .vlist _, .vint _ => .isFalse nofun
  | .vlist _, .vpath _ => .isFalse nofun
  | .vlist _, .vdict _ => .isFalse nofun
  | .vdict _, .vnone => .isFalse nofun
  | .vdict _, .vstr _ => .isFalse nofun
  | .vdict _, .vbool _ => .isFalse nofun
  | .vdict _, .vint _ => .isFalse nofun
  | .vdict _, .vpath _ => .isFalse nofun
  | .vdict _, .vlist _ => .isFalse nofun

def Value.decEqList : (a b : List Value) → Decidable (a = b)
  | [], [] => .isTrue rfl
  | x :: xs, y :: ys =>
    match Value.decEq x y, Value.decEqList xs ys with
    | .isTrue h1, .isTrue h2 => .isTrue (by rw [h1, h2])
    | .isFalse h1, _ => .isFalse (by intro he; cases he; exact h1 rfl)
    | _, .isFalse h2 => .isFalse (by intro he; cases he; exact h2 rfl)
  | [], _ :: _ => .isFalse nofun
  | _ :: _, [] => .isFalse nofun

def Value.decEqDict : (a b : List (String × Value)) → Decidable (a = b)
  | [], [] => .isTrue rfl
  | (kx, vx) :: xs, (ky, vy) :: ys =>
    if h0 : kx = ky then
      match Value.decEq vx vy, Value.decEqDict xs ys with
      | .isTrue h1, .isTrue h2 => .isTrue (by rw [h0, h1, h2])
      | .isFalse h1, _ => .isFalse (by intro he; cases he; exact h1 rfl)
      | _, .isFalse h2 => .isFalse (by intro he; cases he; exact h2 rfl)
    else .isFalse (by intro he; cases he; exact h0 rfl)
  | [], _ :: _ => .isFalse nofun
  | _ :: _, [] => .isFalse nofun

end

instance : DecidableEq Value := Value.decEq

/-! ### Dictionary operations (Python dict semantics) -/

/-- `d[k]` as an option: the value of the first pair with key `k`. -/
def dget (d : Entry) (k : String) : Option Value :=
  (d.find? (fun p => p.1 = k)).map Prod.snd

/-- `k in d`. -/
def dmem (d : Entry) (k : String) : Bool :=
  d.any (fun p => p.1 = k)

/-- `d.get(k)`: `None` when the key is absent. -/
def pyGet (d : Entry) (k : String) : Value :=
  (dget d k).getD .vnone

/-- `d.get(k, default)`. -/
def pyGetD (d : Entry) (k : String) (default : Value) : Value :=
  (dget d k).getD default

/-- `d[k] = v`: replace the value at the first occurrence of `k`, or append
the pair when the key is absent (Python insertion-order semantics). -/
def dset (d : Entry) (k : String) (v : Value) : Entry :=
  if dmem d k then d.map (fun p => if p.1 = k then (k, v) else p)
  else d ++ [(k, v)]

/-- Python truthiness for the embedded values. -/
def pyTruthy : Value → Bool
  | .vnone => false
  | .vstr s => s ≠ ""
  | .vbool b => b
  | .vint n => n ≠ 0
  | .vpath _ => true
  | .vlist l => !l.isEmpty
  | .vdict d => !d.isEmpty

/-! ### `ConfigReader._merge_configs_by_identifier` (config_reader.py lines 277-297)

`deepcopy` has no observable effect at the level of values, so the deep copies
taken by the source are identities here; the aliasing consequences of
`deepcopy` are treated separately in the heap model below. -/

/-- First global entry whose identifier value is not `None` and equals `li`,
or the empty dict when none matches (`matched[0] if matched else {}`). -/
def firstMatch (global_config : List Entry) (li : Value) (identifier : String) : Entry :=
  (global_config.find? (fun g => pyGet g identifier ≠ .vnone ∧ pyGet g identifier = li)).getD []

/-- `ConfigReader._merge_configs_by_identifier(global_config, local_config, identifier)`. -/
def merge_configs_by_identifier (global_config : List Entry) (local_config : Entry)
    (identifier : String) : Entry :=
  let local_identifier := pyGet local_config identifier
  if local_identifier = .vnone then local_config
  else
    local_config.foldl (fun config kv => dset config kv.1 kv.2)
      (firstMatch global_config local_identifier identifier)

/-! ### `ConfigReader._separate_evaluations`, models mode (config_reader.py lines 409-432) -/

/-- The evaluation entry built for launcher `l` and dataset `d`: the model with
its `launchers` replaced by `[l]` and its `datasets` replaced by `[d]`. -/
def mkEval (m : Entry) (l d : Value) : Entry :=
  dset (dset m "launchers" (.vlist [l])) "datasets" (.vlist [d])

/-- Body of the per-model loop of `_separate_models_evaluations`; `none` models
a Python `KeyError`/`TypeError` when `launchers` or `datasets` is missing or
not a list. -/
def separate_model (m : Entry) : Option (List Entry) := do
  let .vlist launchers := pyGet m "launchers" | none
  let .vlist datasets := pyGet m "datasets" | none
  pure
    (if launchers.isEmpty then []
     else if launchers.length = 1 ∧ datasets.length = 1 then [m]
     else launchers.flatMap (fun l => datasets.map (fun d => mkEval m l d)))

/-- `separate_model` lifted to a `Value` that must be a dict. -/
def separate_value (v : Value) : Option (List Value) := do
  let .vdict m := v | none
  (separate_model m).map (List.map Value.vdict)

/-- `_separate_models_evaluations(models_config)`: replace the `models` list by
the concatenation of the per-model evaluation lists. -/
def separate_models_evaluations (config : Entry) : Option Entry := do
  let .vlist models := pyGet config "models" | none
  let evaluations ← models.mapM separate_value
  pure (dset config "models" (.vlist evaluations.flatten))

/-! ### Launcher filtering (config_reader.py lines 396-406, 584-661) -/

/-- `s.lower()`.  (`String.toLower` of the core library is defined through
`String.mapAux`, whose well-founded recursion does not reduce inside the
kernel; the equivalent map over the character data is used instead.) -/
def strLower (s : String) : String := ⟨s.data.map Char.toLower⟩

/-- Modelled from the spec: `to_lower_register` from `..utils` (whose source
file is not part of this snapshot) lower-cases every string of a list. -/
def to_lower_register (l : List String) : List String := l.map (fun s => strLower s)

/-- Modelled from the spec: `contains_any` from `..utils`: some element of the
second collection occurs in the first (Python `in`, which is false between a
non-string element and a list of strings). -/
def contains_any (container : List String) (elems : List Value) : Bool :=
  elems.any (fun a => match a with | .vstr s => container.contains s | _ => false)

/-- The entries of the `args` dictionary consulted by `filtered` and
`filter_models`. `use_new_api = none` covers both an absent key and an
explicit `None` value, which behave identically in every use
(`complete_openvino_launchers` returns its input unchanged on `None`). -/
structure FilterArgs where
  target_tags : List String := []
  target_backends : Option (List String) := none
  use_new_api : Option Bool := none
  target_framework : String := ""

/-- `launcher.get('tags', [])` as a list of values. -/
def launcherTags (launcher : Entry) : List Value :=
  match pyGetD launcher "tags" (.vlist []) with
  | .vlist l => l
  | _ => []

/-- Truthiness of `args.get('target_backends')`. -/
def backendsTruthy : Option (List String) → Bool
  | some (_ :: _) => true
  | _ => false

/-- `launcher.get('backend') in target_backends`. -/
def backendMem (launcher : Entry) (tb : Option (List String)) : Bool :=
  match pyGet launcher "backend", tb with
  | .vstr b, some l => l.contains b
  | _, _ => false

/-- `filtered(launcher, targets, args)` (lines 584-607): `some true` means the
launcher is dropped. `none` models a Python exception (missing or non-string
`framework`, or a non-string `device` value). -/
def filtered (launcher : Entry) (targets : List String) (args : FilterArgs) : Option Bool :=
  let tf0 := if args.target_framework = "dlsdk" ∧ args.use_new_api = some true then
    "openvino" else args.target_framework
  if args.target_tags ≠ [] ∧ ¬ contains_any args.target_tags (launcherTags launcher) then
    some true
  else
    match pyGet launcher "framework" with
    | .vstr fw =>
      let config_framework := strLower fw
      let target_framework := strLower (if tf0 = "" then config_framework else tf0)
      if config_framework ≠ target_framework then some true
      else if backendsTruthy args.target_backends ∧ ¬ backendMem launcher args.target_backends then
        some true
      else
        match pyGetD launcher "device" (.vstr "") with
        | .vstr dv => some (!targets.isEmpty && !targets.contains (strLower dv))
        | _ => none
    | _ => none

/-- `complete_openvino_launchers(launchers, use_new_api)` (lines 610-633):
when no launcher of the preferred openvino API flavour is present, launchers
of the other flavour get their `framework` renamed to the preferred one. -/
def complete_openvino_launchers (launchers : List Entry) (use_new_api : Bool) : List Entry :=
  let origFw := if use_new_api then "openvino" else "dlsdk"
  let updFw := if use_new_api then "dlsdk" else "openvino"
  if launchers.any (fun l => pyGet l "framework" = .vstr origFw) then launchers
  else launchers.map (fun l =>
    if pyGet l "framework" = .vstr updFw then dset l "framework" (.vstr origFw) else l)

/-- The `for device in target_devices` loop of `filter_models`
(lines 645-650): one copy of the launcher per device, kept when it passes
`filtered`. -/
def filter_models_devices (l : Entry) (targets : List String) (args : FilterArgs) :
    List String → Option (List Entry)
  | [] => some []
  | device :: rest => do
    let f ← filtered (dset l "device" (.vstr device)) targets args
    let tail ← filter_models_devices l targets args rest
    pure (if f then tail else dset l "device" (.vstr device) :: tail)

/-- Per-launcher body of the loop in `filter_models` (lines 643-652). -/
def filter_models_launcher (targets : List String) (args : FilterArgs) (l : Entry) :
    Option (List Entry) :=
  if ¬ dmem l "device" ∧ targets ≠ [] then
    filter_models_devices l targets args targets
  else do
    let f ← filtered l targets args
    pure (if f then [] else [l])

/-- The whole launcher loop of `filter_models`. -/
def filter_models_launchers (targets : List String) (args : FilterArgs) :
    List Entry → Option (List Entry)
  | [] => some []
  | l :: rest => do
    let hd ← filter_models_launcher targets args l
    let tl ← filter_models_launchers targets args rest
    pure (hd ++ tl)

/-- `v` as a dictionary. -/
def asDict : Value → Option Entry
  | .vdict e => some e
  | _ => none

/-- Per-model body of `filter_models` (lines 638-659): the inner `none` means
the model is dropped because no launcher survived filtration. -/
def filter_models_entry (targets : List String) (args : FilterArgs) (m : Entry) :
    Option (Option Entry) :=
  match pyGet m "launchers" with
  | .vlist ls0 =>
    match ls0.mapM asDict with
    | none => none
    | some ls1 =>
      match filter_models_launchers targets args
          (match args.use_new_api with
            | some b => complete_openvino_launchers ls1 b
            | none => ls1) with
      | none => none
      | some kept =>
        if kept.isEmpty then some none
        else some (some (dset m "launchers" (.vlist (kept.map Value.vdict))))
  | _ => none

/-- `filter_models(config, target_devices, args)` (lines 636-661) applied to
the `models` list. -/
def filter_models (targets : List String) (args : FilterArgs) :
    List Value → Option (List Value)
  | [] => some []
  | .vdict m :: rest =>
    match filter_models_entry targets args m with
    | none => none
    | some hd =>
      match filter_models targets args rest with
      | none => none
      | some tl => some (match hd with | some e => Value.vdict e :: tl | none => tl)
  | _ :: _ => none

/-- `ConfigReader._filter_launchers` (lines 396-406) in models mode: target
devices are lower-cased with `to_lower_register`, then `filter_models`
runs. -/
def filter_launchers_models (target_devices : List String) (args : FilterArgs)
    (models : List Value) : Option (List Value) :=
  filter_models (to_lower_register target_devices) args models

/-! ### Local config validation (config_reader.py lines 107-117, 130-141,
144-188, 821-828) -/

/-- A Python exception as far as the validation code distinguishes them:
`ConfigError` with its message, or any other (`TypeError`, `KeyError`,
`AttributeError`) raised by operating on a value of the wrong shape. -/
inductive PyErr where
  | configError (msg : String)
  | typeError
  deriving DecidableEq, Repr

/-- The computation ended in a `ConfigError`. -/
def isConfigError {α : Type} (e : Except PyErr α) : Prop :=
  ∃ msg, e = Except.error (PyErr.configError msg)

/-- `get_mode(config)` (lines 821-828): the unique key other than
`global_definitions`. -/
def get_mode (config : Entry) : Except PyErr String :=
  match (config.map Prod.fst).filter (fun k => k ≠ "global_definitions") with
  | [] => .error (.configError "Invalid config structure. No evaluations detected.")
  | [k] => .ok k
  | _ => .error (.configError "Multiple evaluation types in the one config is not supported.")

/-- `_is_requirements_missed(target, requirements)` used as a boolean: some
required entry is absent or falsy. -/
def is_requirements_missed (target : Entry) (requirements : List String) : Bool :=
  requirements.any (fun r => ¬ pyTruthy (pyGet target r))

/-- `model['datasets'].values() if isinstance(model['datasets'], dict) else
model['datasets']`; `none` models the exception raised by iterating anything
else. -/
def datasets_iter : Value → Option (List Value)
  | .vdict d => some (d.map Prod.snd)
  | .vlist l => some l
  | _ => none

/-- The filter over datasets in `_check_models_config`: does some dataset miss
a truthy `name`?  A non-dictionary dataset raises. -/
def datasets_missing : List Value → Except PyErr Bool
  | [] => .ok false
  | .vdict e :: rest => do
    let b ← datasets_missing rest
    .ok (is_requirements_missed e ["name"] || b)
  | _ :: _ => .error .typeError

/-- The per-model checks of `_check_models_config` (lines 153-161). -/
def check_model (m : Value) : Except PyErr Unit := do
  let .vdict me := m | .error .typeError
  if is_requirements_missed me ["name", "launchers", "datasets"] then
    .error (.configError "Each model must specify name, launchers, datasets")
  else do
    let some ds := datasets_iter (pyGet me "datasets") | .error .typeError
    let b ← datasets_missing ds
    if b then .error (.configError "Model must specify name for each dataset")
    else .ok ()

/-- The model loop of `_check_models_config`. -/
def check_models_list : List Value → Except PyErr Unit
  | [] => .ok ()
  | m :: rest => do
    check_model m
    check_models_list rest

/-- `_check_models_config(config)` (lines 148-161). -/
def check_models_config (config : Entry) : Except PyErr Unit := do
  let models := pyGet config "models"
  if ¬ pyTruthy models then .error (.configError "Missed models in local config")
  else do
    let .vlist ms := models | .error .typeError
    check_models_list ms

/-- The evaluation loop of `_check_module_config`. -/
def check_modules_list : List Value → Except PyErr Unit
  | [] => .ok ()
  | .vdict e :: rest =>
    if is_requirements_missed e ["name", "module"] then
      .error (.configError "Each evaluations must specify name, module")
    else check_modules_list rest
  | _ :: _ => .error .typeError

/-- `_check_module_config(config)` (lines 163-170). -/
def check_module_config (config : Entry) : Except PyErr Unit :=
  match dget config "evaluations" with
  | none => .error .typeError
  | some evaluations =>
    if ¬ pyTruthy evaluations then
      .error (.configError "Missed evaluations in local config")
    else
      match evaluations with
      | .vlist es => check_modules_list es
      | _ => .error .typeError

/-- `ConfigReader.check_local_config(config)` (lines 144-188). -/
def check_local_config (config : Value) : Except PyErr String := do
  let .vdict c := config
    | .error (.configError "local config should has dictionary based structure")
  let mode ← get_mode c
  match mode with
  | "evaluations" => do check_module_config c; .ok mode
  | "models" => do check_models_config c; .ok mode
  | _ => .error (.configError "Accuracy Checker mode is not supported.")

/-- The validation performed by `ConfigReader.merge` before any merging
(lines 107-111 together with the dict check of `_read_configs`, lines
130-133; reading the YAML files themselves is IO and outside the model). -/
def merge_checks (local_config : Value) : Except PyErr String := do
  let .vdict _ := local_config
    | .error (.configError "local config should be dict-like object")
  if ¬ pyTruthy local_config then .error (.configError "Missing local config")
  else check_local_config local_config

/-! ### Path resolution (config_reader.py lines 75-90, 300-306, 775-818) -/

/-- `COMMAND_LINE_ARGS_AS_ENV_VARS` (lines 75-82). -/
def COMMAND_LINE_ARGS_AS_ENV_VARS : List (String × String) :=
  [("source", "DATA_DIR"), ("annotations", "ANNOTATIONS_DIR"), ("models", "MODELS_DIR"),
    ("extensions", "EXTENSIONS_DIR"), ("model_attributes", "MODEL_ATTRIBUTES_DIR"),
    ("kaldi_bin_dir", "KALDI_BIN_DIR")]

/-- `ALLOW_FILE_OR_DIR` (line 90). -/
def ALLOW_FILE_OR_DIR : List String := ["models"]

/-- The filesystem facts consulted by `merge_entry_paths`: which paths are
directories and which exist. -/
structure FS where
  isDir : PPath → Bool
  isPresent : PPath → Bool

/-- The env-var fallback of `_merge_paths_with_prefixes` (lines 302-306): an
argument that is absent or `None` is replaced by `Path()` of its environment
variable when that variable is set. -/
def merge_paths_env (env : String → Option String) (args : Entry) : Entry :=
  COMMAND_LINE_ARGS_AS_ENV_VARS.foldl
    (fun a p =>
      if pyGet a p.1 = .vnone then
        match env p.2 with
        | some v => dset a p.1 (.vpath (parsePPath v))
        | none => a
      else a)
    args

/-- `Path(v)` for a config value: defined for strings and paths, an exception
otherwise. -/
def toPPath : Value → Option PPath
  | .vstr s => some (parsePPath s)
  | .vpath p => some p
  | _ => none

/-- `select_arg_path(selected_argument, value_id, argument)` (lines
775-785). -/
def select_arg_path (selected_argument : Value) (value_id : Nat) : Except PyErr PPath :=
  match selected_argument with
  | .vlist xs =>
    if xs.length > 1 then
      if xs.length ≤ value_id then .error .typeError
      else
        match xs.get? value_id with
        | some v => match toPPath v with | some p => .ok p | none => .error .typeError
        | none => .error .typeError
    else
      match xs.head? with
      | some v => match toPPath v with | some p => .ok p | none => .error .typeError
      | none => .error .typeError
  | v => match toPPath v with | some p => .ok p | none => .error .typeError

/-- The `for arg_candidate in argument_list` loop of `merge_entry_paths`
(lines 802-817): skip absent or falsy arguments; raise when a selected
argument is not a directory and not in `ALLOW_FILE_OR_DIR`; stop early when
`prefix / config_path` exists; return the last selected argument. -/
def arg_candidates_loop (fs : FS) (args : Entry) (value_id : Nat) (config_path : PPath) :
    List String → Option PPath → Except PyErr (Option PPath)
  | [], sel => .ok sel
  | c :: rest, sel =>
    if ¬ pyTruthy (pyGet args c) then
      arg_candidates_loop fs args value_id config_path rest sel
    else do
      let sa ← select_arg_path (pyGet args c) value_id
      let prefPath ←
        if fs.isDir sa then Except.ok sa
        else if ALLOW_FILE_OR_DIR.contains c then Except.ok sa.parent
        else Except.error (.configError "argument should be a directory")
      if fs.isPresent (prefPath.join config_path) then .ok (some sa)
      else arg_candidates_loop fs args value_id config_path rest (some sa)

/-- The value of an `entries_paths` mapping: one command-line argument name or
a list of candidate names (`argument_list = [argument]` normalisation of
line 799). -/
inductive ArgSpec where
  | one (arg : String)
  | many (cand : List String)
  deriving DecidableEq, Repr

/-- The candidate list of an `ArgSpec`. -/
def ArgSpec.toList : ArgSpec → List String
  | .one a => [a]
  | .many l => l

/-- One iteration of the `for field, argument in keys.items()` loop of
`merge_entry_paths` (lines 789-818), acting on the dictionary `value`: an
absolute `value[field]` stays as it is, a relative one is joined under the
selected argument (or kept when no candidate was selected). -/
def merge_entry_field (fs : FS) (args : Entry) (value_id : Nat) (value : Entry)
    (field : String) (argument : ArgSpec) : Except PyErr Entry :=
  match dget value field with
  | none => .ok value
  | some fv =>
    match toPPath fv with
    | none => .error .typeError
    | some config_path =>
      if config_path.abs then .ok (dset value field (.vpath config_path))
      else do
        let sel ← arg_candidates_loop fs args value_id config_path argument.toList none
        .ok (dset value field (.vpath
          (match sel with
            | some sa => sa.join config_path
            | none => config_path)))

/-- `merge_entry_paths(keys, value, args, value_id)` (lines 788-818) for a
dictionary `value` (the `is_iterable` guard holds). -/
def merge_entry_paths (fs : FS) (keys : List (String × ArgSpec)) (value : Entry)
    (args : Entry) (value_id : Nat) : Except PyErr Entry :=
  keys.foldlM (fun v kv => merge_entry_field fs args value_id v kv.1 kv.2) value

/-! ### Image preprocessing (formula_recognition_demo.py lines 67-72, 87,
113-120) -/

/-- A pixel: three colour channels. -/
abbrev Pixel := Nat × Nat × Nat

/-- An image: a list of rows of pixels. -/
abbrev Image := List (List Pixel)

/-- `COLOR_WHITE` (line 87). -/
def COLOR_WHITE : Pixel := (255, 255, 255)

/-- The width `img.shape[1]` of a (rectangular) image. -/
def imgWidth (img : Image) : Nat := (img.headD []).length

/-- `crop(img, target_shape)` (lines 67-72): keep the top-left
`min(target, actual)` window. -/
def crop (img : Image) (target_shape : Nat × Nat) : Image :=
  let new_h := min target_shape.1 img.length
  let new_w := min target_shape.2 (imgWidth img)
  (img.take new_h).map (fun row => row.take new_w)

/-- `cv.copyMakeBorder(img, 0, bottom, 0, right, BORDER_CONSTANT, None,
color)`: extend every row by `right` copies of `color` on the right and
append `bottom` rows of the resulting width. -/
def copyMakeBorder (img : Image) (bottom right : Nat) (color : Pixel) : Image :=
  img.map (fun row => row ++ List.replicate right color)
    ++ List.replicate bottom (List.replicate (imgWidth img + right) color)

/-- `preprocess_image(preprocess, image_raw, tgt_shape)` (lines 113-120);
with the `crop` preprocessor the border widths are the `Int` differences of
the source, which are never negative there, so `Nat` subtraction agrees. -/
def preprocess_image (preprocess : Image → Nat × Nat → Image) (image_raw : Image)
    (tgt_shape : Nat × Nat) : Image :=
  copyMakeBorder (preprocess image_raw tgt_shape)
    (tgt_shape.1 - (preprocess image_raw tgt_shape).length)
    (tgt_shape.2 - imgWidth (preprocess image_raw tgt_shape))
    COLOR_WHITE

/-- The pixel at row `i`, column `j`. -/
def pix (img : Image) (i j : Nat) : Option Pixel :=
  img[i]?.bind (fun row => row[j]?)

/-! ### Formula recognition demo: decoding loop and asynchronous state
machine (formula_recognition_demo.py lines 46-50, 161-251)

The encoder and decoder networks live behind the inference SDK; they are
abstracted as functions, and the token constants `START_TOKEN` and
`END_TOKEN` (imported from `utils`, whose source file is not part of this
snapshot) are parameters `startTok`/`endTok`. -/

/-- `np.argmax` over a vector: index of the first maximal element
(`0` on an empty vector). -/
def argmaxAux (bi : Nat) (bv : Int) (i : Nat) : List Int → Nat
  | [] => bi
  | x :: xs => if bv < x then argmaxAux i x (i + 1) xs else argmaxAux bi bv (i + 1) xs

/-- First index of the maximum of a vector. -/
def argmaxIdx : List Int → Nat
  | [] => 0
  | x :: xs => argmaxAux 0 x 1 xs

/-- `ModelStatus` (lines 46-50). -/
inductive ModelStatus where
  | ready
  | encoder_infer
  | decoder_infer
  deriving DecidableEq, Repr

/-- The decoder-side attributes of `Demo` threaded between steps.  Each logit
buffer has shape `(1, vocab)` and is kept as its single row, so `logits`
below is already the `squeeze(axis=1)` of the accumulated Python list. -/
structure DecState (R H C O : Type) where
  row_enc_out : R
  dec_states_h : H
  dec_states_c : C
  output : O
  tgt : Nat
  logits : List (List Int)

/-- One decoder request result: the output blobs `dec_st_h_t`, `dec_st_c_t`,
`output` and `logit`. -/
structure DecOut (H C O : Type) where
  dec_st_h_t : H
  dec_st_c_t : C
  output : O
  logit : List Int

/-- The decoder network as a function of the five request inputs
`row_enc_out`, `dec_st_c`, `dec_st_h`, `output_prev`, `tgt`
(`_async_infer_decoder`, lines 164-171). -/
abbrev DecNet (R H C O : Type) := R → C → H → O → Nat → DecOut H C O

/-- `_unpack_dec_results(dec_res)` (lines 237-243): store the new decoder
states, append the logit, and set `tgt` to its argmax. -/
def unpack_dec_results {R H C O : Type} (st : DecState R H C O) (res : DecOut H C O) :
    DecState R H C O :=
  { st with
    dec_states_h := res.dec_st_h_t,
    dec_states_c := res.dec_st_c_t,
    output := res.output,
    logits := st.logits ++ [res.logit],
    tgt := argmaxIdx res.logit }

/-- `_process_decoding_results` (lines 199-221) once the pending decoder
request has completed: the request result is the decoder network applied to
the stored inputs; returns the new state and, exactly when the new `tgt`
equals `endTok`, the stacked logits with their per-step argmaxes
(otherwise the next decoder request is started from the new state). -/
def process_decoding_results {R H C O : Type} (dec : DecNet R H C O) (endTok : Nat)
    (st : DecState R H C O) :
    DecState R H C O × Option (List (List Int) × List Nat) :=
  let res := dec st.row_enc_out st.dec_states_c st.dec_states_h st.output st.tgt
  let st1 := unpack_dec_results st res
  if st1.tgt = endTok then (st1, some (st1.logits, st1.logits.map argmaxIdx))
  else (st1, none)

/-- The `while res is None` loop of `infer_sync` (lines 193-197), fuel-bounded. -/
def decode_loop {R H C O : Type} (dec : DecNet R H C O) (endTok : Nat) :
    Nat → DecState R H C O → Option (List (List Int) × List Nat)
  | 0, _ => none
  | fuel + 1, st =>
    match process_decoding_results dec endTok st with
    | (_, some r) => some r
    | (st1, none) => decode_loop dec endTok fuel st1

/-- The encoder outputs consumed by `_unpack_enc_results` (lines 245-251). -/
structure EncOut (R H C O : Type) where
  row_enc_out : R
  hidden : H
  context : C
  init_0 : O

/-- `_unpack_enc_results(enc_res)` (lines 245-251): seed the decoder state
from the encoder outputs (`hidden` into `dec_states_h`, `context` into
`dec_states_c`, `init_0` into `output`), with `START_TOKEN` as the first
input token and an empty logits list. -/
def unpack_enc_results {R H C O : Type} (startTok : Nat) (e : EncOut R H C O) :
    DecState R H C O :=
  { row_enc_out := e.row_enc_out,
    dec_states_h := e.hidden,
    dec_states_c := e.context,
    output := e.init_0,
    tgt := startTok,
    logits := [] }

/-- The asynchronous `Demo` state: `model_status` together with the decoder
attributes, which are populated exactly while the decoder runs. -/
inductive AsyncDemo (R H C O : Type) where
  | ready
  | encoder_infer
  | decoder_infer (d : DecState R H C O)

/-- The `model_status` attribute of an asynchronous state. -/
def AsyncDemo.status {R H C O : Type} : AsyncDemo R H C O → ModelStatus
  | .ready => .ready
  | .encoder_infer => .encoder_infer
  | .decoder_infer _ => .decoder_infer

/-- One call of `infer_async(model_input)` (lines 173-187) together with the
helpers it dispatches to (`_run_encoder` lines 223-228, `_run_decoder` lines
230-235, `_process_decoding_results` lines 199-221).  `encDone` and `decDone`
are whether `wait(timeout=1)` on the pending request returned `0`; `encOut`
is the encoder result consumed when the encoder request completes. -/
def infer_async {R H C O : Type} (dec : DecNet R H C O) (startTok endTok : Nat)
    (encDone : Bool) (encOut : EncOut R H C O) (decDone : Bool)
    (st : AsyncDemo R H C O) :
    AsyncDemo R H C O × Option (List (List Int) × List Nat) :=
  match st with
  | .ready => (.encoder_infer, none)
  | .encoder_infer =>
    if encDone then (.decoder_infer (unpack_enc_results startTok encOut), none)
    else (.encoder_infer, none)
  | .decoder_infer d =>
    if ¬ decDone then (.decoder_infer d, none)
    else
      match process_decoding_results dec endTok d with
      | (_, some r) => (.ready, some r)
      | (d1, none) => (.decoder_infer d1, none)

/-- Shape assumption under which `check_model` can only succeed or raise a
`ConfigError` (never an exception of another type): the model is a
dictionary and its datasets iterate to a list of dictionaries. -/
def modelShapeOk (m : Value) : Prop :=
  ∃ e : Entry, m = .vdict e
    ∧ (is_requirements_missed e ["name", "launchers", "datasets"] = true
      ∨ ∃ ds, datasets_iter (pyGet e "datasets") = some ds
        ∧ ∀ d ∈ ds, ∃ de : Entry, d = .vdict de)

/-! ### Heap model for in-place mutation (`_merge_models_config` and
`_merge_module_config`, config_reader.py lines 213-265)

These two functions promise not to touch the caller's `local_config`: they
`deepcopy` it and mutate only the copy.  A value-level embedding cannot state
that, so here dictionaries and lists are heap cells addressed by natural
numbers; `deepcopy` allocates fresh cells and item assignment overwrites a
cell in place, exactly as in Python. -/

/-- A primitive (immutable) Python value stored directly in a cell. -/
inductive Prim where
  | pnone
  | pstr (s : String)
  | pint (n : Int)
  | pbool (b : Bool)
  deriving DecidableEq, Repr

/-- One heap cell: a primitive, a list of references, or a dictionary from
keys to references. -/
inductive Obj where
  | prim (p : Prim)
  | list (elems : List Nat)
  | dict (fields : List (String × Nat))
  deriving DecidableEq, Repr

/-- The heap: cell `r` is `store[r]`; allocation appends. -/
structure Heap where
  store : List Obj
  deriving DecidableEq, Repr

/-- The object in cell `r`. -/
def Heap.get? (h : Heap) (r : Nat) : Option Obj := h.store.get? r

/-- Number of allocated cells. -/
def Heap.size (h : Heap) : Nat := h.store.length

/-- Allocate a fresh cell. -/
def Heap.alloc (h : Heap) (o : Obj) : Heap × Nat :=
  (⟨h.store ++ [o]⟩, h.store.length)

/-- Overwrite cell `r` in place. -/
def Heap.write (h : Heap) (r : Nat) (o : Obj) : Heap :=
  ⟨h.store.set r o⟩

mutual

/-- The value reachable from `r`, fuel-bounded (`none` on a dangling
reference or exhausted fuel). -/
def readValue (fuel : Nat) (h : Heap) (r : Nat) : Option Value :=
  match fuel with
  | 0 => none
  | fuel' + 1 =>
    match h.get? r with
    | some (.prim .pnone) => some .vnone
    | some (.prim (.pstr s)) => some (.vstr s)
    | some (.prim (.pint n)) => some (.vint n)
    | some (.prim (.pbool b)) => some (.vbool b)
    | some (.list es) => (readList fuel' h es).map Value.vlist
    | some (.dict fs) => (readDict fuel' h fs).map Value.vdict
    | none => none

/-- Read each element of a list of references. -/
def readList (fuel : Nat) (h : Heap) (refs : List Nat) : Option (List Value) :=
  match fuel with
  | 0 => none
  | fuel' + 1 =>
    match refs with
    | [] => some []
    | e :: es => do
      let v ← readValue fuel' h e
      let vs ← readList fuel' h es
      pure (v :: vs)

/-- Read each field of a dictionary cell. -/
def readDict (fuel : Nat) (h : Heap) (flds : List (String × Nat)) :
    Option (List (String × Value)) :=
  match fuel with
  | 0 => none
  | fuel' + 1 =>
    match flds with
    | [] => some []
    | (k, e) :: fs => do
      let v ← readValue fuel' h e
      let vs ← readDict fuel' h fs
      pure ((k, v) :: vs)

end

mutual

/-- `copy.deepcopy` from `r`: copy the whole object graph into fresh cells.
(Python's memo dictionary, which preserves sharing inside the copy, is not
modelled; it changes which fresh cells the copy uses, never which existing
cells are written.) -/
def deepcopy (fuel : Nat) (h : Heap) (r : Nat) : Option (Heap × Nat) :=
  match fuel with
  | 0 => none
  | fuel' + 1 =>
    match h.get? r with
    | some (.prim p) => some (h.alloc (.prim p))
    | some (.list es) => do
      let (h1, es1) ← deepcopyList fuel' h es
      pure (h1.alloc (.list es1))
    | some (.dict fs) => do
      let (h1, fs1) ← deepcopyDict fuel' h fs
      pure (h1.alloc (.dict fs1))
    | none => none

/-- Deep-copy every element of a list of references. -/
def deepcopyList (fuel : Nat) (h : Heap) (refs : List Nat) : Option (Heap × List Nat) :=
  match fuel with
  | 0 => none
  | fuel' + 1 =>
    match refs with
    | [] => some (h, [])
    | e :: es => do
      let (h1, r1) ← deepcopy fuel' h e
      let (h2, rs) ← deepcopyList fuel' h1 es
      pure (h2, r1 :: rs)

/-- Deep-copy every field of a dictionary cell. -/
def deepcopyDict (fuel : Nat) (h : Heap) (flds : List (String × Nat)) :
    Option (Heap × List (String × Nat)) :=
  match fuel with
  | 0 => none
  | fuel' + 1 =>
    match flds with
    | [] => some (h, [])
    | (k, e) :: fs => do
      let (h1, r1) ← deepcopy fuel' h e
      let (h2, rs) ← deepcopyDict fuel' h1 fs
      pure (h2, (k, r1) :: rs)

end

/-- `d[k]` on the dictionary cell `r`: the stored reference. -/
def hDictGet (h : Heap) (r : Nat) (k : String) : Option Nat := do
  let .dict fs ← h.get? r | none
  (fs.find? (fun p => p.1 = k)).map Prod.snd

/-- `d.get(k)` on the dictionary cell `r`: `some none` when the key is
absent, outer `none` when `r` is not a dictionary. -/
def hDictGetOpt (h : Heap) (r : Nat) (k : String) : Option (Option Nat) := do
  let .dict fs ← h.get? r | none
  pure ((fs.find? (fun p => p.1 = k)).map Prod.snd)

/-- `d[k] = v` on the dictionary cell `r`. -/
def hDictSet (h : Heap) (r : Nat) (k : String) (v : Nat) : Option Heap := do
  let .dict fs ← h.get? r | none
  let fs1 :=
    if fs.any (fun p => p.1 = k) then fs.map (fun p => if p.1 = k then (k, v) else p)
    else fs ++ [(k, v)]
  pure (h.write r (.dict fs1))

/-- The element references of the list cell `r`. -/
def hListElems (h : Heap) (r : Nat) : Option (List Nat) := do
  let .list es ← h.get? r | none
  pure es

/-- `l[i] = v` on the list cell `r`. -/
def hListSet (h : Heap) (r : Nat) (i : Nat) (v : Nat) : Option Heap := do
  let .list es ← h.get? r | none
  if i < es.length then pure (h.write r (.list (es.set i v))) else none

/-- Is the object in cell `r` Python `None`? -/
def hIsNone (h : Heap) (r : Nat) : Option Bool := do
  let o ← h.get? r
  pure (o = Obj.prim .pnone)

/-- Python truthiness of the object in cell `r`. -/
def hTruthy (h : Heap) (r : Nat) : Option Bool := do
  let o ← h.get? r
  match o with
  | .prim .pnone => pure false
  | .prim (.pstr s) => pure (s ≠ "")
  | .prim (.pint n) => pure (n ≠ 0)
  | .prim (.pbool b) => pure b
  | .list es => pure (¬ es.isEmpty)
  | .dict fs => pure (¬ fs.isEmpty)

/-- `g.get(identifier) is not None and g.get(identifier) == local_identifier`
for one global entry (value comparison through `readValue`). -/
def hIdentMatches (fuel : Nat) (h : Heap) (gref : Nat) (identifier : String)
    (li : Value) : Option Bool := do
  let go ← hDictGetOpt h gref identifier
  match go with
  | none => pure false
  | some ir => do
    let isn ← hIsNone h ir
    if isn then pure false
    else do
      let gv ← readValue fuel h ir
      pure (gv = li)

/-- `matched[0]`: the first global entry whose identifier matches. -/
def hFindMatch (fuel : Nat) (h : Heap) (identifier : String) (li : Value) :
    List Nat → Option (Option Nat)
  | [] => some none
  | g :: gs => do
    let b ← hIdentMatches fuel h g identifier li
    if b then pure (some g) else hFindMatch fuel h identifier li gs

/-- The `for key, value in local_config.items(): config[key] = value` loop of
`_merge_configs_by_identifier`. -/
def hSetFields (h : Heap) (cref : Nat) : List (String × Nat) → Option Heap
  | [] => some h
  | (k, v) :: rest => do
    let h1 ← hDictSet h cref k v
    hSetFields h1 cref rest

/-- Heap-level `_merge_configs_by_identifier(global_config, local_config,
identifier)` (lines 277-297): the reference of the merged entry is the local
entry itself when its identifier is missing or `None`, otherwise a `deepcopy`
of the first matching global entry (or of a fresh empty dict) updated in
place with the local items (whose value references are shared, as in
Python). -/
def hMergeByIdentifier (fuel : Nat) (h : Heap) (globalRefs : List Nat)
    (localRef : Nat) (identifier : String) : Option (Heap × Nat) := do
  let lio ← hDictGetOpt h localRef identifier
  let isNone ← match lio with
    | none => pure true
    | some ir => hIsNone h ir
  if isNone then pure (h, localRef)
  else do
    let some ir := lio | none
    let li ← readValue fuel h ir
    let mtch ← hFindMatch fuel h identifier li globalRefs
    let (h1, cref) ← match mtch with
      | some g => deepcopy fuel h g
      | none => pure (h.alloc (.dict []))
    let .dict lfs ← h1.get? localRef | none
    let h2 ← hSetFields h1 cref lfs
    pure (h2, cref)

/-- `for i, entry in enumerate(list): list[i] = merge(...)`: the common
shape of the launcher loop and the list-shaped dataset loop.  The elements
are read once before the loop, as `enumerate` captures them before each
overwrite. -/
def hMergeElems (fuel : Nat) (h : Heap) (grefs : List Nat) (listRef : Nat)
    (identifier : String) (i : Nat) : List Nat → Option Heap
  | [] => some h
  | e :: es => do
    let (h1, r1) ← hMergeByIdentifier fuel h grefs e identifier
    let h2 ← hListSet h1 listRef i r1
    hMergeElems fuel h2 grefs listRef identifier (i + 1) es

/-- The launcher loop of the merge functions (lines 221-225, 250-254). -/
def hMergeLaunchers (fuel : Nat) (h : Heap) (glaunchers : List Nat)
    (launchersRef : Nat) : Option Heap := do
  let es ← hListElems h launchersRef
  hMergeElems fuel h glaunchers launchersRef "framework" 0 es

/-- The dict-shaped dataset loop: `for i, dataset in datasets.items():
datasets[i] = merge(...)`. -/
def hMergeDictVals (fuel : Nat) (h : Heap) (grefs : List Nat) (dictRef : Nat)
    (identifier : String) : List (String × Nat) → Option Heap
  | [] => some h
  | (k, e) :: fs => do
    let (h1, r1) ← hMergeByIdentifier fuel h grefs e identifier
    let h2 ← hDictSet h1 dictRef k r1
    hMergeDictVals fuel h2 grefs dictRef identifier fs

/-- The dataset loop of the merge functions (lines 226-234, 255-263):
`model['datasets']` is a list (indexed) or a dict (keyed). -/
def hMergeDatasets (fuel : Nat) (h : Heap) (gdatasets : List Nat)
    (datasetsRef : Nat) : Option Heap :=
  match h.get? datasetsRef with
  | some (.list es) => hMergeElems fuel h gdatasets datasetsRef "name" 0 es
  | some (.dict fs) => hMergeDictVals fuel h gdatasets datasetsRef "name" fs
  | _ => none

/-- The per-model body of `_merge_models_config` (lines 220-234).
`glaunchers`/`gdatasets` are the element references of
`global_configs['launchers']`/`['datasets']` when those keys exist; the
loops never mutate the global entries (the merge deep-copies the matched
entry before writing), so reading them once up front is equivalent. -/
def hMergeModel (fuel : Nat) (h : Heap) (glaunchers gdatasets : Option (List Nat))
    (modelRef : Nat) : Option Heap := do
  let h1 ← match glaunchers with
    | none => pure h
    | some gls => do
      let some lref := hDictGet h modelRef "launchers" | none
      hMergeLaunchers fuel h gls lref
  match gdatasets with
  | none => pure h1
  | some gds => do
    let some dref := hDictGet h1 modelRef "datasets" | none
    hMergeDatasets fuel h1 gds dref

/-- The model loop of `_merge_models_config`. -/
def hMergeModels (fuel : Nat) (h : Heap) (gl gd : Option (List Nat)) :
    List Nat → Option Heap
  | [] => some h
  | m :: ms => do
    let h1 ← hMergeModel fuel h gl gd m
    hMergeModels fuel h1 gl gd ms

/-- `global_configs.get(key)` as element references: `None` when the key is
absent, the list elements otherwise (lines 218-219, 244-245). -/
def hGlobalElems (h : Heap) (gfs : List (String × Nat)) (k : String) :
    Option (Option (List Nat)) :=
  match (gfs.find? (fun p => p.1 = k)).map Prod.snd with
  | none => pure none
  | some glr => (hListElems h glr).map some

/-- Heap-level `ConfigReader._merge_models_config(global_configs,
local_config, arguments)` (lines 213-237): deep-copy the local config, then
merge each model's launchers and datasets with the matching global entries
in place; `config['models'] = models` rewrites the same list reference. -/
def hMergeModelsConfig (fuel : Nat) (h : Heap) (globalRef : Option Nat)
    (localRef : Nat) : Option (Heap × Nat) := do
  let (h1, cref) ← deepcopy fuel h localRef
  let gt ← match globalRef with
    | none => pure false
    | some g => hTruthy h1 g
  if ¬ gt then pure (h1, cref)
  else do
    let some g := globalRef | none
    let .dict gfs ← h1.get? g | none
    let glaunchers ← hGlobalElems h1 gfs "launchers"
    let gdatasets ← hGlobalElems h1 gfs "datasets"
    let some mref := hDictGet h1 cref "models" | none
    let models ← hListElems h1 mref
    let h2 ← hMergeModels fuel h1 glaunchers gdatasets models
    let h3 ← hDictSet h2 cref "models" mref
    pure (h3, cref)

/-- The per-evaluation body of `_merge_module_config` (lines 246-263):
evaluations without a `module_config` key are skipped; launchers and datasets
are merged only when present both locally and globally. -/
def hMergeEvaluation (fuel : Nat) (h : Heap) (gl gd : Option (List Nat))
    (evalRef : Nat) : Option Heap := do
  let mco ← hDictGetOpt h evalRef "module_config"
  match mco with
  | none => pure h
  | some mcref => do
    let .dict mcfs ← h.get? mcref | none
    let h1 ← match gl with
      | none => pure h
      | some gls =>
        if mcfs.any (fun p => p.1 = "launchers") then do
          let some lref := (mcfs.find? (fun p => p.1 = "launchers")).map Prod.snd | none
          hMergeLaunchers fuel h gls lref
        else pure h
    match gd with
    | none => pure h1
    | some gds =>
      if mcfs.any (fun p => p.1 = "datasets") then do
        let some dref := (mcfs.find? (fun p => p.1 = "datasets")).map Prod.snd | none
        hMergeDatasets fuel h1 gds dref
      else pure h1

/-- The evaluation loop of `_merge_module_config`. -/
def hMergeEvaluations (fuel : Nat) (h : Heap) (gl gd : Option (List Nat)) :
    List Nat → Option Heap
  | [] => some h
  | e :: es => do
    let h1 ← hMergeEvaluation fuel h gl gd e
    hMergeEvaluations fuel h1 gl gd es

/-- Heap-level `ConfigReader._merge_module_config(global_config,
local_config, args)` (lines 240-265). -/
def hMergeModuleConfig (fuel : Nat) (h : Heap) (globalRef : Option Nat)
    (localRef : Nat) : Option (Heap × Nat) := do
  let (h1, cref) ← deepcopy fuel h localRef
  let gt ← match globalRef with
    | none => pure false
    | some g => hTruthy h1 g
  if ¬ gt then pure (h1, cref)
  else do
    let some g := globalRef | none
    let .dict gfs ← h1.get? g | none
    let glaunchers ← hGlobalElems h1 gfs "launchers"
    let gdatasets ← hGlobalElems h1 gfs "datasets"
    let some eref := hDictGet h1 cref "evaluations" | none
    let evals ← hListElems h1 eref
    let h2 ← hMergeEvaluations fuel h1 glaunchers gdatasets evals
    pure (h2, cref)

/-- A concrete heap for exercising the merge: cells 0-8 hold a local config
`{"models": [{"launchers": [{"framework": "dlsdk"}], "datasets":
[{"name": "d1"}]}]}` rooted at cell 8, cells 9-17 a global config with a
matching launcher (extra key `batch`) and dataset (extra key `data_source`)
rooted at cell 17. -/
def demoLocalHeap : Heap := ⟨[
  .prim (.pstr "dlsdk"),
  .dict [("framework", 0)],
  .list [1],
  .prim (.pstr "d1"),
  .dict [("name", 3)],
  .list [4],
  .dict [("launchers", 2), ("datasets", 5)],
  .list [6],
  .dict [("models", 7)],
  .prim (.pstr "dlsdk"),
  .prim (.pint 4),
  .dict [("framework", 9), ("batch", 10)],
  .list [11],
  .prim (.pstr "d1"),
  .prim (.pstr "/data"),
  .dict [("name", 13), ("data_source", 14)],
  .list [15],
  .dict [("launchers", 12), ("datasets", 16)]
]⟩

/-- The heap produced by `hMergeModelsConfig 12 demoLocalHeap (some 17) 8`:
the original eighteen cells followed by the mutated deep copy (cells
18-32). -/
def demoMergedHeap : Heap := ⟨[
  .prim (.pstr "dlsdk"),
  .dict [("framework", 0)],
  .list [1],
  .prim (.pstr "d1"),
  .dict [("name", 3)],
  .list [4],
  .dict [("launchers", 2), ("datasets", 5)],
  .list [6],
  .dict [("models", 7)],
  .prim (.pstr "dlsdk"),
  .prim (.pint 4),
  .dict [("framework", 9), ("batch", 10)],
  .list [11],
  .prim (.pstr "d1"),
  .prim (.pstr "/data"),
  .dict [("name", 13), ("data_source", 14)],
  .list [15],
  .dict [("launchers", 12), ("datasets", 16)],
  .prim (.pstr "dlsdk"),
  .dict [("framework", 18)],
  .list [29],
  .prim (.pstr "d1"),
  .dict [("name", 21)],
  .list [32],
  .dict [("launchers", 20), ("datasets", 23)],
  .list [24],
  .dict [("models", 25)],
  .prim (.pstr "dlsdk"),
  .prim (.pint 4),
  .dict [("framework", 18), ("batch", 28)],
  .prim (.pstr "d1"),
  .prim (.pstr "/data"),
  .dict [("name", 21), ("data_source", 31)]
]⟩

/-! #### Frame predicates for the in-place merge

`_merge_models_config` and `_merge_module_config` mutate only the deep copy
of the local config; the frame statement below is phrased with these
predicates: the caller's cells (those allocated before the call) keep their
contents, and the fresh region never points back below the cut, so reading
the local config afterwards yields the same value. -/

/-- The references stored directly in one heap cell. -/
def objRefs : Obj → List Nat
  | .prim _ => []
  | .list es => es
  | .dict fs => fs.map Prod.snd

/-- Every reference stored anywhere in the heap points at an allocated
cell. -/
def heapClosed (h : Heap) : Prop :=
  ∀ o ∈ h.store, ∀ r ∈ objRefs o, r < h.size

instance (h : Heap) : Decidable (heapClosed h) :=
  inferInstanceAs (Decidable (∀ o ∈ h.store, ∀ r ∈ objRefs o, r < h.size))

/-- Cells at index `n` and above reference only cells at index `n` and
above. -/
def regionHi (n : Nat) (h : Heap) : Prop :=
  ∀ i o, n ≤ i → h.get? i = some o → ∀ r ∈ objRefs o, n ≤ r

/-- `h2` is `h` with fresh cells added and only cells at index `n` and above
rewritten: no cell below `n` changed, and the region at `n` and above stays
closed upwards. -/
def Frame (n : Nat) (h h2 : Heap) : Prop :=
  h.size ≤ h2.size ∧ (∀ i, i < n → h2.get? i = h.get? i) ∧ regionHi n h2

/-! ### Dictionary lemmas -/

@[simp] theorem dget_nil (k : String) : dget [] k = none := rfl

theorem dget_cons (p : String × Value) (d : Entry) (k : String) :
    dget (p :: d) k = if p.1 = k then some p.2 else dget d k := by
  by_cases h : p.1 = k <;> simp [dget, List.find?, h]

theorem dmem_iff_dget (d : Entry) (k : String) :
    dmem d k = true ↔ dget d k ≠ none := by
  induction d with
  | nil => simp [dmem, dget]
  | cons p rest ih =>
    by_cases h : p.1 = k
    · simp [dmem, dget_cons, h, List.any_cons]
    · simpa [dmem, dget_cons, h, List.any_cons] using ih

theorem dget_dset_self (d : Entry) (k : String) (v : Value) :
    dget (dset d k v) k = some v := by
  unfold dset
  by_cases hm : dmem d k
  · simp only [hm, if_true]
    rw [dmem_iff_dget] at hm
    induction d with
    | nil => simp [dget] at hm
    | cons p rest ih =>
      by_cases h : p.1 = k
      · simp [dget_cons, h]
      · rw [dget_cons] at hm
        simp only [h, if_neg, if_false] at hm
        simpa [dget_cons, h] using ih hm
  · simp only [hm, if_false, Bool.false_eq_true]
    induction d with
    | nil => simp [dget_cons]
    | cons p rest ih =>
      simp only [dmem, List.any_cons, Bool.or_eq_true, decide_eq_true_eq] at hm
      push_neg at hm
      have h1 : p.1 ≠ k := hm.1
      have h2 : ¬ dmem rest k := by
        simp [dmem, List.any_eq_true]
        intro x hx
        have := hm.2
        simp [List.any_eq_true] at this
        exact this x hx
      simpa [List.cons_append, dget_cons, h1] using ih h2

theorem dget_map_replace (d : Entry) (k k' : String) (v : Value) (hne : k' ≠ k) :
    dget (d.map (fun p => if p.1 = k' then (k', v) else p)) k = dget d k := by
  induction d with
  | nil => rfl
  | cons p rest ih =>
    by_cases h : p.1 = k'
    · have hpk : p.1 ≠ k := by rw [h]; exact hne
      simp only [List.map_cons, if_pos h]
      rw [dget_cons, dget_cons]
      simp only [hne, hpk, if_false]
      exact ih
    · simp only [List.map_cons, if_neg h]
      rw [dget_cons, dget_cons, ih]

theorem dget_append_single_ne (d : Entry) (k k' : String) (v : Value) (hne : k' ≠ k) :
    dget (d ++ [(k', v)]) k = dget d k := by
  induction d with
  | nil => simp [dget_cons, hne]
  | cons p rest ih =>
    rw [List.cons_append, dget_cons, dget_cons, ih]

theorem dget_dset_ne (d : Entry) (k k' : String) (v : Value) (hne : k' ≠ k) :
    dget (dset d k' v) k = dget d k := by
  unfold dset
  by_cases hm : dmem d k'
  · simp only [hm, if_true]
    exact dget_map_replace d k k' v hne
  · simp only [hm, Bool.false_eq_true, if_false]
    exact dget_append_single_ne d k k' v hne

theorem dget_eq_none_iff (d : Entry) (k : String) :
    dget d k = none ↔ ∀ p ∈ d, p.1 ≠ k := by
  induction d with
  | nil => simp [dget]
  | cons p rest ih =>
    rw [dget_cons]
    by_cases h : p.1 = k
    · simp [h]
    · simp only [h, if_false]
      rw [ih]
      constructor
      · intro ha q hq
        rcases List.mem_cons.mp hq with hq | hq
        · rw [hq]; exact h
        · exact ha q hq
      · intro ha q hq
        exact ha q (List.mem_cons_of_mem _ hq)

theorem dget_of_pyGet (d : Entry) (k : String) (v : Value)
    (h : pyGet d k = v) (hv : v ≠ .vnone) : dget d k = some v := by
  unfold pyGet at h
  cases hg : dget d k with
  | none => rw [hg] at h; simp at h; exact absurd h.symm hv
  | some w => rw [hg] at h; simp at h; rw [h]

theorem map_replace_id (l : Entry) (k : String) (v : Value) (h : ∀ q ∈ l, q.1 ≠ k) :
    l.map (fun p => if p.1 = k then (k, v) else p) = l := by
  induction l with
  | nil => rfl
  | cons p rest ih =>
    rw [List.map_cons, if_neg (h p (List.mem_cons_self p rest)),
      ih (fun q hq => h q (List.mem_cons_of_mem _ hq))]

theorem map_replace_eq_self (d : Entry) (k : String) (v : Value)
    (hnd : (d.map Prod.fst).Nodup) (h : dget d k = some v) :
    d.map (fun p => if p.1 = k then (k, v) else p) = d := by
  induction d with
  | nil => rfl
  | cons p rest ih =>
    rw [List.map_cons, List.nodup_cons] at hnd
    rw [dget_cons] at h
    by_cases hk : p.1 = k
    · simp only [hk, if_pos rfl] at h
      have hv : p.2 = v := by injection h
      have hrest : ∀ q ∈ rest, q.1 ≠ k := by
        intro q hq hqk
        exact hnd.1 (hk ▸ hqk ▸ List.mem_map_of_mem Prod.fst hq)
      rw [List.map_cons, if_pos hk, map_replace_id rest k v hrest, ← hk, ← hv]

    · simp only [hk, if_false] at h
      rw [List.map_cons, if_neg hk, ih hnd.2 h]

theorem dset_eq_self (d : Entry) (k : String) (v : Value)
    (hnd : (d.map Prod.fst).Nodup) (h : dget d k = some v) : dset d k v = d := by
  have hmem : dmem d k = true := by
    rw [dmem_iff_dget, h]; exact Option.some_ne_none v
  unfold dset
  rw [hmem, if_pos rfl]
  exact map_replace_eq_self d k v hnd h

theorem dget_foldl_dset_not_mem (l base : Entry) (k : String)
    (h : ∀ p ∈ l, p.1 ≠ k) :
    dget (l.foldl (fun c kv => dset c kv.1 kv.2) base) k = dget base k := by
  induction l generalizing base with
  | nil => rfl
  | cons p rest ih =>
    rw [List.foldl_cons, ih _ (fun q hq => h q (List.mem_cons_of_mem _ hq)),
      dget_dset_ne _ _ _ _ (h p (List.mem_cons_self p rest))]

theorem dget_foldl_dset_mem (l base : Entry) (k : String) (v : Value)
    (hnd : (l.map Prod.fst).Nodup) (h : dget l k = some v) :
    dget (l.foldl (fun c kv => dset c kv.1 kv.2) base) k = some v := by
  induction l generalizing base with
  | nil => simp [dget] at h
  | cons p rest ih =>
    rw [List.map_cons, List.nodup_cons] at hnd
    rw [dget_cons] at h
    rw [List.foldl_cons]
    by_cases hk : p.1 = k
    · simp only [hk, if_pos rfl] at h
      have hrest : ∀ q ∈ rest, q.1 ≠ k := by
        intro q hq hqk
        exact hnd.1 (hk ▸ hqk ▸ List.mem_map_of_mem Prod.fst hq)
      rw [dget_foldl_dset_not_mem rest _ k hrest, ← hk, dget_dset_self]
      injection h with h
      rw [h]
    · simp only [hk, if_false] at h
      exact ih _ hnd.2 h

/-! ### Lower-casing lemmas -/

theorem char_toLower_toNat (c : Char) (h : 65 ≤ c.toNat ∧ c.toNat ≤ 90) :
    (Char.toLower c).toNat = c.toNat + 32 := by
  unfold Char.toLower
  simp only [h, and_self, if_pos]
  have hv : (c.toNat + 32).isValidChar := Or.inl (by omega)
  rw [Char.ofNat, dif_pos hv]
  simp [Char.ofNatAux, Char.toNat, UInt32.toNat, BitVec.toNat_ofNatLt]

theorem char_toLower_eq_self (c : Char) (h : ¬ (65 ≤ c.toNat ∧ c.toNat ≤ 90)) :
    Char.toLower c = c := by
  unfold Char.toLower
  simp only [ge_iff_le, h, if_false]

theorem char_toLower_idem (c : Char) : c.toLower.toLower = c.toLower := by
  by_cases h : 65 ≤ c.toNat ∧ c.toNat ≤ 90
  · have h1 : (Char.toLower c).toNat = c.toNat + 32 := char_toLower_toNat c h
    apply char_toLower_eq_self
    omega
  · rw [char_toLower_eq_self c h, char_toLower_eq_self c h]

theorem strLower_idem (s : String) : strLower (strLower s) = strLower s := by
  unfold strLower
  simp only [List.map_map]
  congr 1
  apply List.map_congr_left
  intro c _
  exact char_toLower_idem c

/-! ### Cross-product lemma -/

theorem length_cross {α β γ : Type} (ls : List α) (ds : List β) (f : α → β → γ) :
    (ls.flatMap (fun l => ds.map (f l))).length = ls.length * ds.length := by
  induction ls with
  | nil => simp
  | cons a as ih => simp [ih, Nat.succ_mul, Nat.add_comm]

/-! ### Claim C2 -/

/-- C2: `_merge_configs_by_identifier` returns the local entry unchanged when
the local entry has no value under the identifier key; otherwise it returns a
(deep) copy of the first global entry whose identifier value equals the local
identifier — or of the empty mapping when none matches — with every key of
the local entry written over it, so every key present in the local entry
holds its local value in the merged result. -/
theorem C2_merge_configs_by_identifier (global_config : List Entry)
    (local_config : Entry) (identifier : String) :
    (pyGet local_config identifier = .vnone →
      merge_configs_by_identifier global_config local_config identifier = local_config)
    ∧ (pyGet local_config identifier ≠ .vnone →
      merge_configs_by_identifier global_config local_config identifier =
        local_config.foldl (fun config kv => dset config kv.1 kv.2)
          (firstMatch global_config (pyGet local_config identifier) identifier)
      ∧ ((local_config.map Prod.fst).Nodup →
        ∀ k v, dget local_config k = some v →
          dget (merge_configs_by_identifier global_config local_config identifier) k
            = some v)
      ∧ (∀ k, dget local_config k = none →
        dget (merge_configs_by_identifier global_config local_config identifier) k =
          dget (firstMatch global_config (pyGet local_config identifier) identifier) k)) := by
  constructor
  · intro h
    unfold merge_configs_by_identifier
    simp [h]
  · intro h
    have he : merge_configs_by_identifier global_config local_config identifier =
        local_config.foldl (fun config kv => dset config kv.1 kv.2)
          (firstMatch global_config (pyGet local_config identifier) identifier) := by
      unfold merge_configs_by_identifier
      simp [h]
    refine ⟨he, ?_, ?_⟩
    · intro hnd k v hk
      rw [he]
      exact dget_foldl_dset_mem _ _ _ _ hnd hk
    · intro k hk
      rw [he]
      exact dget_foldl_dset_not_mem _ _ _ ((dget_eq_none_iff _ _).mp hk)

/-- Witness for C2: a local launcher entry merged over a matching global
entry keeps its own keys and inherits the global ones. -/
theorem C2_witness :
    dget (merge_configs_by_identifier
      [[("framework", Value.vstr "dlsdk"), ("device", Value.vstr "CPU")]]
      [("framework", Value.vstr "dlsdk"), ("adapter", Value.vstr "classification")]
      "framework") "adapter" = some (Value.vstr "classification") :=
  ((C2_merge_configs_by_identifier
      [[("framework", Value.vstr "dlsdk"), ("device", Value.vstr "CPU")]]
      [("framework", Value.vstr "dlsdk"), ("adapter", Value.vstr "classification")]
      "framework").2 (by decide)).2.1 (by decide) "adapter"
    (Value.vstr "classification") (by decide)

/-! ### Claim C1 -/

/-- C1: in models mode, `_separate_evaluations` replaces each model having
`L ≥ 1` launchers and `D ≥ 1` datasets by exactly `L * D` evaluation
entries, one per (launcher, dataset) pair in launcher-major order, each with
exactly one launcher and one dataset; a model with an empty launcher list is
removed; the new `models` list concatenates the per-model results. -/
theorem C1_separate_evaluations (m : Entry) (ls ds : List Value)
    (hnd : (m.map Prod.fst).Nodup)
    (hl : pyGet m "launchers" = .vlist ls)
    (hd : pyGet m "datasets" = .vlist ds) :
    (ls = [] → separate_model m = some [])
    ∧ (ls ≠ [] → ds ≠ [] →
      separate_model m = some (ls.flatMap (fun l => ds.map (fun d => mkEval m l d)))
      ∧ (ls.flatMap (fun l => ds.map (fun d => mkEval m l d))).length
          = ls.length * ds.length
      ∧ (∀ l ∈ ls, ∀ d ∈ ds,
        dget (mkEval m l d) "launchers" = some (.vlist [l])
        ∧ dget (mkEval m l d) "datasets" = some (.vlist [d])))
    ∧ (∀ (config : Entry) (ms : List Value) (rs : List (List Value)),
      pyGet config "models" = .vlist ms →
      ms.mapM separate_value = some rs →
      separate_models_evaluations config = some (dset config "models" (.vlist rs.flatten))) := by
  refine ⟨?_, ?_, ?_⟩
  · intro he
    simp [separate_model, hl, hd, he]
  · intro hls hds
    have hsingle : ∀ l d, ls = [l] → ds = [d] → mkEval m l d = m := by
      intro l d hl1 hd1
      have hgl : dget m "launchers" = some (.vlist [l]) :=
        dget_of_pyGet m "launchers" _ (hl1 ▸ hl) (by simp)
      have hgd : dget m "datasets" = some (.vlist [d]) :=
        dget_of_pyGet m "datasets" _ (hd1 ▸ hd) (by simp)
      unfold mkEval
      rw [dset_eq_self m "launchers" _ hnd hgl, dset_eq_self m "datasets" _ hnd hgd]
    refine ⟨?_, length_cross ls ds (mkEval m), ?_⟩
    · by_cases hone : ls.length = 1 ∧ ds.length = 1
      · obtain ⟨l, hl1⟩ := List.length_eq_one.mp hone.1
        obtain ⟨d, hd1⟩ := List.length_eq_one.mp hone.2
        subst hl1; subst hd1
        simp [separate_model, hl, hd, hsingle l d rfl rfl]
      · simp [separate_model, hl, hd, hone, List.isEmpty_iff, hls]
    · intro l _ d _
      constructor
      · unfold mkEval
        rw [dget_dset_ne _ _ "datasets" _ (by decide), dget_dset_self]
      · unfold mkEval
        rw [dget_dset_self]
  · intro config ms rs hms hmm
    unfold List.mapM at hmm
    simp [separate_models_evaluations, hms, hmm]

/-- Witness for C1: a model with two launchers and two datasets explodes into
the four evaluations in launcher-major order. -/
theorem C1_witness :
    separate_model
      [("name", Value.vstr "m"),
        ("launchers", Value.vlist [Value.vdict [("framework", Value.vstr "dlsdk")],
          Value.vdict [("framework", Value.vstr "openvino")]]),
        ("datasets", Value.vlist [Value.vdict [("name", Value.vstr "d1")],
          Value.vdict [("name", Value.vstr "d2")]])]
      = some ([Value.vdict [("framework", Value.vstr "dlsdk")],
          Value.vdict [("framework", Value.vstr "openvino")]].flatMap
        (fun l => [Value.vdict [("name", Value.vstr "d1")],
          Value.vdict [("name", Value.vstr "d2")]].map
          (fun d => mkEval
            [("name", Value.vstr "m"),
              ("launchers", Value.vlist [Value.vdict [("framework", Value.vstr "dlsdk")],
                Value.vdict [("framework", Value.vstr "openvino")]]),
              ("datasets", Value.vlist [Value.vdict [("name", Value.vstr "d1")],
                Value.vdict [("name", Value.vstr "d2")]])] l d))) :=
  ((C1_separate_evaluations _ _ _ (by decide) (by decide) (by decide)).2.1
    (by decide) (by decide)).1

/-! ### Filtering lemmas (towards C4 and C9) -/

theorem pyGet_dset_ne (d : Entry) (k k' : String) (v : Value) (hne : k' ≠ k) :
    pyGet (dset d k' v) k = pyGet d k := by
  unfold pyGet
  rw [dget_dset_ne d k k' v hne]

theorem pyGetD_dset_self (d : Entry) (k : String) (v dflt : Value) :
    pyGetD (dset d k v) k dflt = v := by
  unfold pyGetD
  rw [dget_dset_self]
  rfl

/-- Evaluation of `filtered` when no tags, backends or new-api switch are in
play and the launcher has a string framework and (possibly defaulted) string
device: removal is exactly a framework mismatch or a missed device. -/
theorem filtered_eval (l : Entry) (targets : List String) (args : FilterArgs)
    (fw dv : String)
    (htags : args.target_tags = []) (hback : args.target_backends = none)
    (hapi : args.use_new_api = none)
    (hfw : pyGet l "framework" = .vstr fw)
    (hdv : pyGetD l "device" (.vstr "") = .vstr dv) :
    filtered l targets args =
      some (decide (args.target_framework ≠ ""
          ∧ strLower fw ≠ strLower args.target_framework)
        || decide (targets ≠ [] ∧ strLower dv ∉ targets)) := by
  unfold filtered
  rw [hapi]
  simp only [htags, ne_eq, not_true_eq_false, false_and, if_false, hfw, hback, hdv]
  have hsw : ¬ (args.target_framework = "dlsdk" ∧ (none : Option Bool) = some true) := by
    rintro ⟨-, h⟩; cases h
  rw [if_neg hsw]
  by_cases htf : args.target_framework = ""
  · rw [htf]
    by_cases ht : targets = [] <;>
      simp [ht, List.elem_iff, strLower_idem, backendsTruthy]
  · by_cases hmm2 : strLower fw = strLower args.target_framework <;>
      by_cases ht : targets = [] <;>
      simp [htf, hmm2, ht, List.elem_iff, strLower_idem, backendsTruthy]

/-- The device-expansion loop: for each device of `xs` (drawn from the
lower-cased targets), the copy of the launcher with that device survives
exactly when the framework matches. -/
theorem filter_models_devices_eval (l : Entry) (targets : List String)
    (args : FilterArgs) (fw : String)
    (htags : args.target_tags = []) (hback : args.target_backends = none)
    (hapi : args.use_new_api = none)
    (hfw : pyGet l "framework" = .vstr fw) :
    ∀ xs : List String, (∀ d ∈ xs, d ∈ targets ∧ strLower d = d) →
      filter_models_devices l targets args xs =
        some (if args.target_framework ≠ "" ∧ strLower fw ≠ strLower args.target_framework
          then [] else xs.map (fun d => dset l "device" (.vstr d))) := by
  intro xs
  induction xs with
  | nil => intro _; simp [filter_models_devices]
  | cons d rest ih =>
    intro hmem
    have hd := hmem d (List.mem_cons_self d rest)
    have hrest := fun x hx => hmem x (List.mem_cons_of_mem _ hx)
    unfold filter_models_devices
    have hfw' : pyGet (dset l "device" (.vstr d)) "framework" = .vstr fw := by
      rw [pyGet_dset_ne l "framework" "device" _ (by decide), hfw]
    have hdv' : pyGetD (dset l "device" (.vstr d)) "device" (.vstr "") = .vstr d :=
      pyGetD_dset_self l "device" _ _
    rw [filtered_eval _ targets args fw d htags hback hapi hfw' hdv']
    have hq : ¬ (targets ≠ [] ∧ strLower d ∉ targets) := by
      rintro ⟨-, hnq⟩; rw [hd.2] at hnq; exact hnq hd.1
    rw [ih hrest]
    by_cases hp : args.target_framework ≠ "" ∧ strLower fw ≠ strLower args.target_framework
    · simp [hp, hq]
    · simp [hp, hq]

/-! ### Claim C4 -/

/-- C4: with no tag/backend/new-api filtering in play, a launcher whose
`framework` is a string is removed exactly when that framework differs
case-insensitively from a given target framework, or target devices are
given and its device is not (case-insensitively) among them; a launcher
without a `device` key is replaced, when target devices are given, by one
copy per target device that passes the filter; and the device lists built by
`_filter_launchers` via `to_lower_register` are already lower-cased, which
is what makes the device comparison case-insensitive. -/
theorem C4_launcher_filtering (l : Entry) (targets : List String)
    (args : FilterArgs) (fw : String)
    (htags : args.target_tags = []) (hback : args.target_backends = none)
    (hapi : args.use_new_api = none)
    (hfw : pyGet l "framework" = .vstr fw)
    (hlow : ∀ d ∈ targets, strLower d = d) :
    (∀ ts : List String, ∀ d ∈ to_lower_register ts, strLower d = d)
    ∧ (∀ dv : String, pyGetD l "device" (.vstr "") = .vstr dv →
      filtered l targets args =
        some (decide (args.target_framework ≠ ""
            ∧ strLower fw ≠ strLower args.target_framework)
          || decide (targets ≠ [] ∧ strLower dv ∉ targets)))
    ∧ (∀ dv : String, dmem l "device" = true →
      pyGetD l "device" (.vstr "") = .vstr dv →
      filter_models_launcher targets args l =
        some (if (args.target_framework ≠ ""
              ∧ strLower fw ≠ strLower args.target_framework)
            ∨ (targets ≠ [] ∧ strLower dv ∉ targets)
          then [] else [l]))
    ∧ (dmem l "device" = false → targets ≠ [] →
      filter_models_launcher targets args l =
        some (if args.target_framework ≠ "" ∧ strLower fw ≠ strLower args.target_framework
          then [] else targets.map (fun d => dset l "device" (.vstr d)))) := by
  refine ⟨?_, ?_, ?_, ?_⟩
  · intro ts d hd
    simp only [to_lower_register, List.mem_map] at hd
    obtain ⟨s, -, rfl⟩ := hd
    exact strLower_idem s
  · intro dv hdv
    exact filtered_eval l targets args fw dv htags hback hapi hfw hdv
  · intro dv hdm hdv
    unfold filter_models_launcher
    rw [if_neg (by simp [hdm])]
    rw [filtered_eval l targets args fw dv htags hback hapi hfw hdv]
    by_cases hp : (args.target_framework ≠ ""
        ∧ strLower fw ≠ strLower args.target_framework)
        ∨ (targets ≠ [] ∧ strLower dv ∉ targets)
    · rcases hp with hp1 | hp2
      · simp [hp1]
      · simp [hp2]
    · have h1 : ¬ (args.target_framework ≠ ""
          ∧ strLower fw ≠ strLower args.target_framework) := fun hc => hp (Or.inl hc)
      have h2 : ¬ (targets ≠ [] ∧ strLower dv ∉ targets) := fun hc => hp (Or.inr hc)
      simp [h1, h2, hp]
  · intro hdm hts
    unfold filter_models_launcher
    rw [if_pos ⟨by simp [hdm], hts⟩]
    exact filter_models_devices_eval l targets args fw htags hback hapi hfw targets
      (fun d hd => ⟨hd, hlow d hd⟩)

/-- Witness for C4: a device-less `dlsdk` launcher under target devices
`cpu`, `gpu` and target framework `DLSDK` is expanded into the two
per-device copies. -/
theorem C4_witness :
    filter_models_launcher ["cpu", "gpu"] { target_framework := "dlsdk" }
      [("framework", Value.vstr "dlsdk")] =
      some [dset [("framework", Value.vstr "dlsdk")] "device" (.vstr "cpu"),
        dset [("framework", Value.vstr "dlsdk")] "device" (.vstr "gpu")] := by
  have h := (C4_launcher_filtering [("framework", Value.vstr "dlsdk")] ["cpu", "gpu"]
    { target_framework := "dlsdk" } "dlsdk" rfl rfl rfl (by decide)
    (by decide)).2.2.2 (by decide) (by decide)
  exact h.trans (by decide)

/-! ### Claim C9 -/

/-- Shape of a model kept by `filter_models`: its launchers were replaced by
the non-empty surviving list. -/
theorem filter_models_entry_shape (targets : List String) (args : FilterArgs)
    (m e : Entry)
    (h : filter_models_entry targets args m = some (some e)) :
    ∃ kept : List Entry, kept ≠ []
      ∧ e = dset m "launchers" (.vlist (kept.map Value.vdict)) := by
  unfold filter_models_entry at h
  split at h
  · split at h
    · cases h
    · split at h
      · cases h
      · rename_i kept hkeq
        split at h
        · cases h
        · rename_i hke
          injection h with h
          injection h with h
          exact ⟨kept, by simpa using hke, h.symm⟩
  · cases h

/-- C9: every model remaining in the config after `filter_models` has a
non-empty launchers list; a model all of whose launchers were filtered out
is removed from the config entirely. -/
theorem C9_filter_models_nonempty_launchers (targets : List String)
    (args : FilterArgs) (models models' : List Value)
    (hrun : filter_models targets args models = some models') :
    ∀ m' ∈ models', ∃ (e : Entry) (ls : List Value),
      m' = Value.vdict e ∧ dget e "launchers" = some (.vlist ls) ∧ ls ≠ [] := by
  induction models generalizing models' with
  | nil =>
    simp only [filter_models] at hrun
    injection hrun with hrun
    subst hrun
    intro m' hm'
    cases hm'
  | cons v rest ih =>
    cases v
    case vdict m =>
      simp only [filter_models] at hrun
      split at hrun
      · cases hrun
      · rename_i hd hhd
        split at hrun
        · cases hrun
        · rename_i tl htl
          injection hrun with hrun
          subst hrun
          intro m' hm'
          cases hd with
          | none => exact ih tl htl m' hm'
          | some e =>
            rcases List.mem_cons.mp hm' with hme | hmr
            · obtain ⟨kept, hk, hke⟩ := filter_models_entry_shape targets args m e hhd
              refine ⟨e, kept.map Value.vdict, hme, ?_, by simpa using hk⟩
              rw [hke, dget_dset_self]
            · exact ih tl htl m' hmr
    all_goals (simp only [filter_models] at hrun; cases hrun)

/-- Witness for C9: after filtering two models against `cpu`/`dlsdk`, the
surviving model indeed carries a non-empty launchers list. -/
theorem C9_witness :
    ∃ (e : Entry) (ls : List Value),
      Value.vdict (dset
        [("name", Value.vstr "m1"),
          ("launchers", Value.vlist [Value.vdict
            [("framework", Value.vstr "dlsdk"), ("device", Value.vstr "CPU")]]),
          ("datasets", Value.vlist [Value.vdict [("name", Value.vstr "d")]])]
        "launchers" (.vlist [Value.vdict
          [("framework", Value.vstr "dlsdk"), ("device", Value.vstr "CPU")]]))
        = Value.vdict e
      ∧ dget e "launchers" = some (.vlist ls) ∧ ls ≠ [] := by
  refine C9_filter_models_nonempty_launchers ["cpu"] { target_framework := "dlsdk" }
    [Value.vdict
      [("name", Value.vstr "m1"),
        ("launchers", Value.vlist [Value.vdict
          [("framework", Value.vstr "dlsdk"), ("device", Value.vstr "CPU")]]),
        ("datasets", Value.vlist [Value.vdict [("name", Value.vstr "d")]])],
      Value.vdict
      [("name", Value.vstr "m2"),
        ("launchers", Value.vlist [Value.vdict
          [("framework", Value.vstr "openvino"), ("device", Value.vstr "CPU")]]),
        ("datasets", Value.vlist [Value.vdict [("name", Value.vstr "d")]])]]
    [Value.vdict (dset
      [("name", Value.vstr "m1"),
        ("launchers", Value.vlist [Value.vdict
          [("framework", Value.vstr "dlsdk"), ("device", Value.vstr "CPU")]]),
        ("datasets", Value.vlist [Value.vdict [("name", Value.vstr "d")]])]
      "launchers" (.vlist [Value.vdict
        [("framework", Value.vstr "dlsdk"), ("device", Value.vstr "CPU")]]))]
    (by decide) _ (by decide)

/-! ### Validation lemmas (towards C5) -/

theorem except_bind_ok {ε α β : Type} (a : α) (f : α → Except ε β) :
    (Except.ok a >>= f : Except ε β) = f a := rfl

theorem except_bind_error {ε α β : Type} (e : ε) (f : α → Except ε β) :
    ((Except.error e : Except ε α) >>= f : Except ε β) = Except.error e := rfl

theorem datasets_missing_ok (ds : List Value)
    (h : ∀ d ∈ ds, ∃ de : Entry, d = .vdict de) :
    ∃ b, datasets_missing ds = .ok b := by
  induction ds with
  | nil => exact ⟨false, rfl⟩
  | cons d rest ih =>
    obtain ⟨de, rfl⟩ := h d (List.mem_cons_self d rest)
    obtain ⟨b, hb⟩ := ih (fun x hx => h x (List.mem_cons_of_mem _ hx))
    exact ⟨is_requirements_missed de ["name"] || b,
      by simp [datasets_missing, hb, except_bind_ok]⟩

theorem datasets_missing_true (ds : List Value)
    (h : ∀ d ∈ ds, ∃ de : Entry, d = .vdict de)
    (hbad : ∃ d ∈ ds, ∃ de : Entry, d = .vdict de
      ∧ is_requirements_missed de ["name"] = true) :
    datasets_missing ds = .ok true := by
  induction ds with
  | nil => simp at hbad
  | cons d rest ih =>
    obtain ⟨de, rfl⟩ := h d (List.mem_cons_self d rest)
    have hrest := fun x hx => h x (List.mem_cons_of_mem _ hx)
    obtain ⟨x, hx, xe, hxe, hxmiss⟩ := hbad
    rcases List.mem_cons.mp hx with rfl | hxr
    · obtain ⟨b, hb⟩ := datasets_missing_ok rest hrest
      injection hxe with hxe
      subst hxe
      simp [datasets_missing, hb, hxmiss, except_bind_ok]
    · have := ih hrest ⟨x, hxr, xe, hxe, hxmiss⟩
      simp [datasets_missing, this, except_bind_ok]

theorem check_model_missed (e : Entry)
    (h : is_requirements_missed e ["name", "launchers", "datasets"] = true) :
    check_model (.vdict e) =
      .error (.configError "Each model must specify name, launchers, datasets") := by
  simp [check_model, h]

theorem check_model_bad (m : Value) (hshape : modelShapeOk m)
    (hbad : (∃ e : Entry, m = .vdict e
        ∧ is_requirements_missed e ["name", "launchers", "datasets"] = true)
      ∨ (∃ e : Entry, m = .vdict e
        ∧ ∃ ds, datasets_iter (pyGet e "datasets") = some ds
        ∧ ∃ d ∈ ds, ∃ de : Entry, d = .vdict de
        ∧ is_requirements_missed de ["name"] = true)) :
    isConfigError (check_model m) := by
  obtain ⟨e, rfl, hcase⟩ := hshape
  by_cases hmiss : is_requirements_missed e ["name", "launchers", "datasets"] = true
  · exact ⟨_, check_model_missed e hmiss⟩
  · obtain ⟨ds, hds, hall⟩ := hcase.resolve_left hmiss
    rcases hbad with ⟨e', he', hm⟩ | ⟨e', he', ds', hds', hbadd⟩
    · injection he' with he'
      subst he'
      exact absurd hm hmiss
    · injection he' with he'
      subst he'
      rw [hds'] at hds
      injection hds with hds
      subst hds
      have htrue := datasets_missing_true ds' hall hbadd
      refine ⟨"Model must specify name for each dataset", ?_⟩
      simp [check_model, hmiss, hds', htrue, except_bind_ok]

theorem check_model_ok_or_config (m : Value) (hshape : modelShapeOk m) :
    check_model m = .ok () ∨ isConfigError (check_model m) := by
  obtain ⟨e, rfl, hcase⟩ := hshape
  by_cases hmiss : is_requirements_missed e ["name", "launchers", "datasets"] = true
  · exact Or.inr ⟨_, check_model_missed e hmiss⟩
  · obtain ⟨ds, hds, hall⟩ := hcase.resolve_left hmiss
    obtain ⟨b, hb⟩ := datasets_missing_ok ds hall
    cases b
    · left
      simp [check_model, hmiss, hds, hb, except_bind_ok]
    · right
      exact ⟨"Model must specify name for each dataset",
        by simp [check_model, hmiss, hds, hb, except_bind_ok]⟩

theorem check_models_list_config (ms : List Value)
    (hshape : ∀ m ∈ ms, modelShapeOk m)
    (hbad : ∃ m ∈ ms, isConfigError (check_model m)) :
    isConfigError (check_models_list ms) := by
  induction ms with
  | nil => simp at hbad
  | cons m rest ih =>
    rcases check_model_ok_or_config m (hshape m (List.mem_cons_self m rest)) with hok | herr
    · obtain ⟨x, hx, hxe⟩ := hbad
      rcases List.mem_cons.mp hx with rfl | hxr
      · obtain ⟨msg, hmsg⟩ := hxe
        rw [hok] at hmsg
        cases hmsg
      · obtain ⟨msg, hmsg⟩ := ih (fun y hy => hshape y (List.mem_cons_of_mem _ hy))
          ⟨x, hxr, hxe⟩
        exact ⟨msg, by simp [check_models_list, hok, hmsg, except_bind_ok]⟩
    · obtain ⟨msg, hmsg⟩ := herr
      exact ⟨msg, by simp [check_models_list, hmsg, except_bind_error]⟩

/-- The validation pipeline reaches the per-model checks in models mode. -/
theorem merge_checks_reaches_models (c : Entry) (ms : List Value)
    (ht : pyTruthy (.vdict c))
    (hmode : (c.map Prod.fst).filter (fun k => k ≠ "global_definitions") = ["models"])
    (hms : dget c "models" = some (.vlist ms)) (hne : ms ≠ [])
    (herr : isConfigError (check_models_list ms)) :
    isConfigError (merge_checks (.vdict c)) := by
  obtain ⟨msg, hmsg⟩ := herr
  refine ⟨msg, ?_⟩
  have hpg : pyGet c "models" = .vlist ms := by
    unfold pyGet
    rw [hms]
    rfl
  have hmt : pyTruthy (.vlist ms) = true := by
    simp [pyTruthy, List.isEmpty_iff, hne]
  have hgm : get_mode c = .ok "models" := by
    unfold get_mode
    rw [hmode]
  simp [merge_checks, ht, check_local_config, hgm, check_models_config,
    hpg, hmt, hmsg, except_bind_ok, except_bind_error]

/-! ### Claim C5 -/

/-- C5: the validation performed by `ConfigReader.merge` raises a
`ConfigError` on every malformed input: a non-dictionary local config, an
empty local config, zero evaluation-type keys or more than one, a model (in
models mode, under the shape assumptions that keep Python from raising some
other exception first) missing `name`, `launchers` or `datasets`, and a
dataset missing `name`. -/
theorem C5_merge_validation (lc : Value) :
    ((∀ e : Entry, lc ≠ .vdict e) → isConfigError (merge_checks lc))
    ∧ (lc = .vdict [] → merge_checks lc = .error (.configError "Missing local config"))
    ∧ (∀ c : Entry, lc = .vdict c → pyTruthy lc →
      (c.map Prod.fst).filter (fun k => k ≠ "global_definitions") = [] →
      isConfigError (merge_checks lc))
    ∧ (∀ c : Entry, lc = .vdict c → pyTruthy lc →
      2 ≤ ((c.map Prod.fst).filter (fun k => k ≠ "global_definitions")).length →
      isConfigError (merge_checks lc))
    ∧ (∀ (c : Entry) (ms : List Value), lc = .vdict c → pyTruthy lc →
      (c.map Prod.fst).filter (fun k => k ≠ "global_definitions") = ["models"] →
      dget c "models" = some (.vlist ms) → ms ≠ [] →
      (∀ m ∈ ms, modelShapeOk m) →
      ((∃ m ∈ ms, ∃ e : Entry, m = .vdict e
          ∧ is_requirements_missed e ["name", "launchers", "datasets"] = true) →
        isConfigError (merge_checks lc))
      ∧ ((∃ m ∈ ms, ∃ e : Entry, m = .vdict e
          ∧ ∃ ds, datasets_iter (pyGet e "datasets") = some ds
          ∧ ∃ d ∈ ds, ∃ de : Entry, d = .vdict de
          ∧ is_requirements_missed de ["name"] = true) →
        isConfigError (merge_checks lc))) := by
  refine ⟨?_, ?_, ?_, ?_, ?_⟩
  · intro hnd
    cases lc
    case vdict e => exact absurd rfl (hnd e)
    all_goals exact ⟨"local config should be dict-like object", rfl⟩
  · rintro rfl
    rfl
  · rintro c rfl ht hf
    have hgm : get_mode c =
        .error (.configError "Invalid config structure. No evaluations detected.") := by
      unfold get_mode
      rw [hf]
    exact ⟨"Invalid config structure. No evaluations detected.",
      by simp [merge_checks, ht, check_local_config, hgm, except_bind_ok, except_bind_error]⟩
  · rintro c rfl ht hlen
    cases hf : (c.map Prod.fst).filter (fun k => k ≠ "global_definitions") with
    | nil => rw [hf] at hlen; simp at hlen
    | cons a t =>
      cases t with
      | nil => rw [hf] at hlen; simp at hlen
      | cons b t2 =>
        have hgm : get_mode c =
            .error (.configError
              "Multiple evaluation types in the one config is not supported.") := by
          unfold get_mode
          rw [hf]
        exact ⟨"Multiple evaluation types in the one config is not supported.",
          by simp [merge_checks, ht, check_local_config, hgm, except_bind_ok, except_bind_error]⟩
  · rintro c ms rfl ht hmode hms hne hshape
    constructor
    · intro hbad
      apply merge_checks_reaches_models c ms ht hmode hms hne
      apply check_models_list_config ms hshape
      obtain ⟨m, hm, e, hme, hmiss⟩ := hbad
      exact ⟨m, hm, check_model_bad m (hshape m hm) (Or.inl ⟨e, hme, hmiss⟩)⟩
    · intro hbad
      apply merge_checks_reaches_models c ms ht hmode hms hne
      apply check_models_list_config ms hshape
      obtain ⟨m, hm, e, hme, hrest⟩ := hbad
      exact ⟨m, hm, check_model_bad m (hshape m hm) (Or.inr ⟨e, hme, hrest⟩)⟩

/-- Witness for C5: each malformed-input class at a concrete config. -/
theorem C5_witness :
    isConfigError (merge_checks (.vlist []))
    ∧ merge_checks (.vdict []) = .error (.configError "Missing local config")
    ∧ isConfigError (merge_checks (.vdict [("global_definitions", .vstr "d.yml")]))
    ∧ isConfigError (merge_checks (.vdict [("models", .vlist [.vdict [("name", .vstr "m")]]),
        ("evaluations", .vlist [.vdict [("name", .vstr "e")]])]))
    ∧ isConfigError (merge_checks (.vdict [("models", .vlist
        [.vdict [("launchers", .vlist [.vdict []]),
          ("datasets", .vlist [.vdict [("name", .vstr "d")]])]])]))
    ∧ isConfigError (merge_checks (.vdict [("models", .vlist
        [.vdict [("name", .vstr "m"), ("launchers", .vlist [.vdict []]),
          ("datasets", .vlist [.vdict [("subset", .vint 5)]])]])])) := by
  refine ⟨?_, ?_, ?_, ?_, ?_, ?_⟩
  · exact (C5_merge_validation (.vlist [])).1 (fun e h => by cases h)
  · exact (C5_merge_validation (.vdict [])).2.1 rfl
  · exact (C5_merge_validation _).2.2.1 _ rfl (by decide) (by decide)
  · exact (C5_merge_validation _).2.2.2.1 _ rfl (by decide) (by decide)
  · refine ((C5_merge_validation _).2.2.2.2 _
      [.vdict [("launchers", .vlist [.vdict []]),
        ("datasets", .vlist [.vdict [("name", .vstr "d")]])]]
      rfl (by decide) (by decide) (by decide) (by decide) ?_).1 ?_
    · intro m hm
      simp only [List.mem_singleton] at hm
      subst hm
      exact ⟨_, rfl, Or.inl (by decide)⟩
    · exact ⟨_, List.mem_singleton.mpr rfl, _, rfl, by decide⟩
  · refine ((C5_merge_validation _).2.2.2.2 _
      [.vdict [("name", .vstr "m"), ("launchers", .vlist [.vdict []]),
        ("datasets", .vlist [.vdict [("subset", .vint 5)]])]]
      rfl (by decide) (by decide) (by decide) (by decide) ?_).2 ?_
    · intro m hm
      simp only [List.mem_singleton] at hm
      subst hm
      refine ⟨_, rfl, Or.inr ⟨[.vdict [("subset", .vint 5)]], by decide, ?_⟩⟩
      intro d hd
      simp only [List.mem_singleton] at hd
      exact ⟨[("subset", .vint 5)], hd⟩
    · exact ⟨_, List.mem_singleton.mpr rfl, _, rfl,
        [.vdict [("subset", .vint 5)]], by decide,
        .vdict [("subset", .vint 5)], List.mem_singleton.mpr rfl,
        [("subset", .vint 5)], rfl, by decide⟩

/-! ### Image lemmas (towards C10) -/

theorem crop_length (img : Image) (th tw : Nat) :
    (crop img (th, tw)).length = min th img.length := by
  simp [crop]

theorem crop_row_length (img : Image) (th tw : Nat)
    (hrect : ∀ row ∈ img, row.length = imgWidth img) :
    ∀ r ∈ crop img (th, tw), r.length = min tw (imgWidth img) := by
  intro r hr
  simp only [crop, List.mem_map] at hr
  obtain ⟨row, hrow, rfl⟩ := hr
  have := hrect row (List.mem_of_mem_take hrow)
  simp [List.length_take, this]

/-! ### Claim C10 -/

/-- C10: for a rectangular source image with positive height and width,
`preprocess_image` with the `crop` preprocessor returns an image whose height
and width equal the target shape exactly: the top-left
`min(target, source)` window is taken from the source and the remainder is
padded with white. -/
theorem C10_preprocess_crop (img : Image) (th tw : Nat)
    (hrect : ∀ row ∈ img, row.length = imgWidth img)
    (hh : 0 < img.length) (hw : 0 < imgWidth img) :
    (preprocess_image crop img (th, tw)).length = th
    ∧ (∀ row ∈ preprocess_image crop img (th, tw), row.length = tw)
    ∧ (∀ i j, i < min th img.length → j < min tw (imgWidth img) →
      pix (preprocess_image crop img (th, tw)) i j = pix img i j)
    ∧ (∀ i j, i < th → j < tw →
      (min th img.length ≤ i ∨ min tw (imgWidth img) ≤ j) →
      pix (preprocess_image crop img (th, tw)) i j = some COLOR_WHITE) := by
  have hc1 := crop_length img th tw
  have hc2 := crop_row_length img th tw hrect
  rcases hcc : crop img (th, tw) with - | ⟨r0, rs⟩
  · -- the crop is empty, which forces the target height to be zero
    rw [hcc] at hc1
    have hth : th = 0 := by
      simp only [List.length_nil] at hc1
      omega
    subst hth
    have hres : preprocess_image crop img (0, tw) = [] := by
      unfold preprocess_image copyMakeBorder
      rw [hcc]
      rfl
    refine ⟨by rw [hres]; rfl, ?_, ?_, ?_⟩
    · intro row hrow
      rw [hres] at hrow
      cases hrow
    · intro i j hi hj
      omega
    · intro i j hi hj hor
      omega
  · -- the crop is non-empty
    have hwid : imgWidth (crop img (th, tw)) = min tw (imgWidth img) := by
      have : r0 ∈ crop img (th, tw) := by rw [hcc]; exact List.mem_cons_self r0 rs
      simpa [imgWidth, hcc] using hc2 r0 this
    have hWle : min tw (imgWidth img) ≤ tw := Nat.min_le_left tw (imgWidth img)
    have hresult : preprocess_image crop img (th, tw) =
        (crop img (th, tw)).map
          (fun row => row ++ List.replicate (tw - min tw (imgWidth img)) COLOR_WHITE)
        ++ List.replicate (th - min th img.length) (List.replicate tw COLOR_WHITE) := by
      unfold preprocess_image copyMakeBorder
      simp only [hwid, hc1]
      rw [Nat.add_sub_cancel' hWle]
    refine ⟨?_, ?_, ?_, ?_⟩
    · rw [hresult]
      simp only [List.length_append, List.length_map, List.length_replicate, hc1]
      omega
    · intro row hrow
      rw [hresult] at hrow
      simp only [List.mem_append, List.mem_map, List.mem_replicate] at hrow
      rcases hrow with ⟨r, hr, rfl⟩ | ⟨-, rfl⟩
      · simp only [List.length_append, List.length_replicate, hc2 r hr]
        omega
      · simp only [List.length_replicate]
    · intro i j hi hj
      rw [hresult]
      unfold pix
      have hiL : i < ((crop img (th, tw)).map
          (fun row => row ++ List.replicate (tw - min tw (imgWidth img)) COLOR_WHITE)).length := by
        simp only [List.length_map, hc1]
        omega
      rw [List.getElem?_append_left hiL, List.getElem?_map]
      obtain ⟨row, hrow⟩ : ∃ row, img[i]? = some row :=
        ⟨img[i], List.getElem?_eq_getElem (by omega)⟩
      have hrowlen : row.length = imgWidth img := hrect row (List.getElem?_mem hrow)
      have hcropi : (crop img (th, tw))[i]? = some (row.take (min tw (imgWidth img))) := by
        simp only [crop]
        rw [List.getElem?_map, List.getElem?_take_of_lt (by omega), hrow]
        rfl
      rw [hcropi]
      simp only [Option.map_some', Option.some_bind]
      have hjlt : j < (row.take (min tw (imgWidth img))).length := by
        rw [List.length_take, hrowlen]
        omega
      rw [List.getElem?_append_left hjlt, List.getElem?_take_of_lt hj, hrow]
      rfl
    · intro i j hi hj hor
      rw [hresult]
      unfold pix
      by_cases hia : min th img.length ≤ i
      · have hiR : ((crop img (th, tw)).map
            (fun row => row ++ List.replicate (tw - min tw (imgWidth img)) COLOR_WHITE)).length ≤ i := by
          simp only [List.length_map, hc1]
          omega
        rw [List.getElem?_append_right hiR]
        simp only [List.length_map, hc1]
        rw [List.getElem?_replicate]
        have hcond : i - min th img.length < th - min th img.length := by omega
        rw [if_pos hcond]
        simp only [Option.some_bind]
        rw [List.getElem?_replicate, if_pos hj]
      · have hib : i < min th img.length := by omega
        have hjb : min tw (imgWidth img) ≤ j := by
          rcases hor with h | h
          · exact absurd h hia
          · exact h
        have hiL : i < ((crop img (th, tw)).map
            (fun row => row ++ List.replicate (tw - min tw (imgWidth img)) COLOR_WHITE)).length := by
          simp only [List.length_map, hc1]
          omega
        rw [List.getElem?_append_left hiL, List.getElem?_map]
        obtain ⟨row, hrow⟩ : ∃ row, img[i]? = some row :=
          ⟨img[i], List.getElem?_eq_getElem (by omega)⟩
        have hrowlen : row.length = imgWidth img := hrect row (List.getElem?_mem hrow)
        have hcropi : (crop img (th, tw))[i]? = some (row.take (min tw (imgWidth img))) := by
          simp only [crop]
          rw [List.getElem?_map, List.getElem?_take_of_lt (by omega), hrow]
          rfl
        rw [hcropi]
        simp only [Option.map_some', Option.some_bind]
        have hjge : (row.take (min tw (imgWidth img))).length ≤ j := by
          rw [List.length_take, hrowlen]
          omega
        rw [List.getElem?_append_right hjge, List.getElem?_replicate]
        rw [List.length_take, hrowlen]
        rw [if_pos (by omega)]

/-- Witness for C10: a 2-by-2 image cropped and padded to shape 3-by-3. -/
theorem C10_witness :
    (preprocess_image crop
      [[((0 : Nat), (0 : Nat), (0 : Nat)), (1, 1, 1)], [(2, 2, 2), (3, 3, 3)]]
      (3, 3)).length = 3
    ∧ pix (preprocess_image crop
      [[((0 : Nat), (0 : Nat), (0 : Nat)), (1, 1, 1)], [(2, 2, 2), (3, 3, 3)]]
      (3, 3)) 1 1 = pix [[((0 : Nat), (0 : Nat), (0 : Nat)), (1, 1, 1)], [(2, 2, 2), (3, 3, 3)]] 1 1
    ∧ pix (preprocess_image crop
      [[((0 : Nat), (0 : Nat), (0 : Nat)), (1, 1, 1)], [(2, 2, 2), (3, 3, 3)]]
      (3, 3)) 2 2 = some COLOR_WHITE := by
  have h := C10_preprocess_crop
    [[((0 : Nat), (0 : Nat), (0 : Nat)), (1, 1, 1)], [(2, 2, 2), (3, 3, 3)]] 3 3
    (by decide) (by decide) (by decide)
  exact ⟨h.1, h.2.2.1 1 1 (by decide) (by decide), h.2.2.2 2 2 (by decide) (by decide)
    (by decide)⟩

/-! ### Claim C6 -/

/-- C6: the decode loop is token-by-token and greedy: each completed decoder
step appends exactly one logit to the accumulated list, the next decoder
input token is the argmax of that logit, the loop of `infer_sync` continues
exactly while the predicted token differs from `END_TOKEN`, and on the end
token the stacked logits and their per-step argmax targets are returned. -/
theorem process_eq {R H C O : Type} (dec : DecNet R H C O) (endTok : Nat)
    (st : DecState R H C O) :
    process_decoding_results dec endTok st =
      (unpack_dec_results st
          (dec st.row_enc_out st.dec_states_c st.dec_states_h st.output st.tgt),
        if (unpack_dec_results st
            (dec st.row_enc_out st.dec_states_c st.dec_states_h st.output st.tgt)).tgt = endTok
        then some ((unpack_dec_results st
            (dec st.row_enc_out st.dec_states_c st.dec_states_h st.output st.tgt)).logits,
          ((unpack_dec_results st
            (dec st.row_enc_out st.dec_states_c st.dec_states_h st.output st.tgt)).logits).map
              argmaxIdx)
        else none) := by
  unfold process_decoding_results
  split
  · rename_i h
    rw [if_pos h]
  · rename_i h
    rw [if_neg h]

theorem C6_decode_loop {R H C O : Type} (dec : DecNet R H C O) (endTok : Nat)
    (st : DecState R H C O) :
    ((process_decoding_results dec endTok st).1.logits = st.logits ++
      [(dec st.row_enc_out st.dec_states_c st.dec_states_h st.output st.tgt).logit])
    ∧ ((process_decoding_results dec endTok st).1.tgt =
      argmaxIdx (dec st.row_enc_out st.dec_states_c st.dec_states_h st.output st.tgt).logit)
    ∧ ((process_decoding_results dec endTok st).2 ≠ none ↔
      argmaxIdx (dec st.row_enc_out st.dec_states_c st.dec_states_h st.output st.tgt).logit
        = endTok)
    ∧ (argmaxIdx (dec st.row_enc_out st.dec_states_c st.dec_states_h st.output st.tgt).logit
        = endTok →
      (process_decoding_results dec endTok st).2 =
        some ((process_decoding_results dec endTok st).1.logits,
          ((process_decoding_results dec endTok st).1.logits).map argmaxIdx))
    ∧ (∀ fuel : Nat,
      decode_loop dec endTok (fuel + 1) st =
        if (unpack_dec_results st
            (dec st.row_enc_out st.dec_states_c st.dec_states_h st.output st.tgt)).tgt
            = endTok
        then some ((unpack_dec_results st
            (dec st.row_enc_out st.dec_states_c st.dec_states_h st.output st.tgt)).logits,
          ((unpack_dec_results st
            (dec st.row_enc_out st.dec_states_c st.dec_states_h st.output st.tgt)).logits).map
              argmaxIdx)
        else decode_loop dec endTok fuel (unpack_dec_results st
          (dec st.row_enc_out st.dec_states_c st.dec_states_h st.output st.tgt))) := by
  refine ⟨?_, ?_, ?_, ?_, ?_⟩
  · rw [process_eq]
    rfl
  · rw [process_eq]
    rfl
  · rw [process_eq]
    by_cases h : (unpack_dec_results st
        (dec st.row_enc_out st.dec_states_c st.dec_states_h st.output st.tgt)).tgt = endTok
    · have harg : argmaxIdx
          (dec st.row_enc_out st.dec_states_c st.dec_states_h st.output st.tgt).logit
          = endTok := h
      simp [h, harg]
    · have harg : ¬ argmaxIdx
          (dec st.row_enc_out st.dec_states_c st.dec_states_h st.output st.tgt).logit
          = endTok := h
      simp [h, harg]
  · intro he
    rw [process_eq]
    have h : (unpack_dec_results st
        (dec st.row_enc_out st.dec_states_c st.dec_states_h st.output st.tgt)).tgt = endTok := he
    simp [h]
  · intro fuel
    have hstep : decode_loop dec endTok (fuel + 1) st =
        (match process_decoding_results dec endTok st with
          | (_, some r) => some r
          | (st1, none) => decode_loop dec endTok fuel st1) := rfl
    rw [hstep, process_eq]
    by_cases h : (unpack_dec_results st
        (dec st.row_enc_out st.dec_states_c st.dec_states_h st.output st.tgt)).tgt = endTok
    · rw [if_pos h, if_pos h]
    · rw [if_neg h, if_neg h]

/-- Witness for C6: one decoder step whose logit argmax is the end token
returns the stacked logits and targets. -/
theorem C6_witness :
    (process_decoding_results (R := Nat) (H := Nat) (C := Nat) (O := Nat)
      (fun _ _ _ _ _ => ⟨0, 0, 0, [(3 : Int), 7]⟩) 1 ⟨0, 0, 0, 0, 0, []⟩).2 =
      some ([[(3 : Int), 7]], [1]) := by
  have h := (C6_decode_loop (R := Nat) (H := Nat) (C := Nat) (O := Nat)
    (fun _ _ _ _ _ => ⟨0, 0, 0, [(3 : Int), 7]⟩) 1 ⟨0, 0, 0, 0, 0, []⟩).2.2.2.1 (by decide)
  exact h.trans (by rfl)

/-! ### Claim C7 -/

/-- C7: the asynchronous state machine never starts the decoder before the
encoder request has completed: `model_status` steps only along
ready -> encoder_infer -> decoder_infer -> ready, the decoder is seeded with
the encoder's outputs (`row_enc_out`, `hidden`, `context`, `init_0`)
together with `START_TOKEN` as the initial input, and `model_status` returns
to ready exactly when `END_TOKEN` is produced, which is also exactly when a
result is returned. -/
theorem C7_async_state_machine {R H C O : Type} (dec : DecNet R H C O)
    (startTok endTok : Nat) (encDone : Bool) (encOut : EncOut R H C O)
    (decDone : Bool) (st : AsyncDemo R H C O) :
    (st.status = .ready →
      (infer_async dec startTok endTok encDone encOut decDone st).1.status = .encoder_infer)
    ∧ (st.status = .encoder_infer →
      (infer_async dec startTok endTok encDone encOut decDone st).1.status =
        (if encDone then .decoder_infer else .encoder_infer))
    ∧ (st.status = .decoder_infer →
      (infer_async dec startTok endTok encDone encOut decDone st).1.status = .decoder_infer
      ∨ (infer_async dec startTok endTok encDone encOut decDone st).1.status = .ready)
    ∧ (st = .encoder_infer → encDone = true →
      (infer_async dec startTok endTok encDone encOut decDone st).1 =
        .decoder_infer
          { row_enc_out := encOut.row_enc_out,
            dec_states_h := encOut.hidden,
            dec_states_c := encOut.context,
            output := encOut.init_0,
            tgt := startTok,
            logits := [] })
    ∧ ((infer_async dec startTok endTok encDone encOut decDone st).1.status = .ready ↔
      ∃ d : DecState R H C O, st = .decoder_infer d ∧ decDone = true
        ∧ argmaxIdx (dec d.row_enc_out d.dec_states_c d.dec_states_h d.output d.tgt).logit
            = endTok)
    ∧ ((infer_async dec startTok endTok encDone encOut decDone st).2 ≠ none ↔
      (infer_async dec startTok endTok encDone encOut decDone st).1.status = .ready) := by
  refine ⟨?_, ?_, ?_, ?_, ?_, ?_⟩
  · intro hs
    cases st <;> simp_all [AsyncDemo.status, infer_async]
  · intro hs
    cases st <;> simp_all [AsyncDemo.status, infer_async]
    cases encDone <;> simp [AsyncDemo.status]
  · intro hs
    cases st <;> simp_all [AsyncDemo.status, infer_async]
    rename_i d
    cases decDone
    · simp [AsyncDemo.status]
    · simp only [Bool.true_eq_false, not_false_eq_true, if_neg, if_true]
      rcases hp : process_decoding_results dec endTok d with ⟨d1, r⟩
      cases r <;> simp [AsyncDemo.status]
  · rintro rfl ht
    simp [infer_async, ht, unpack_enc_results]
  · cases st
    case ready =>
      simp [infer_async, AsyncDemo.status]
    case encoder_infer =>
      cases encDone <;> simp [infer_async, AsyncDemo.status]
    case decoder_infer d =>
      cases decDone
      · constructor
        · intro hc
          simp [infer_async, AsyncDemo.status] at hc
        · rintro ⟨d', -, hdone, -⟩
          cases hdone
      · simp only [infer_async, Bool.true_eq_false, not_true_eq_false, if_neg, if_false]
        rcases hp : process_decoding_results dec endTok d with ⟨d1, r⟩
        have hr := (C6_decode_loop dec endTok d).2.2.1
        cases r with
        | some v =>
          have harg : argmaxIdx
              (dec d.row_enc_out d.dec_states_c d.dec_states_h d.output d.tgt).logit
              = endTok := by
            apply hr.mp
            rw [hp]
            simp
          constructor
          · rintro -
            exact ⟨d, rfl, trivial, harg⟩
          · rintro -
            exact rfl
        | none =>
          constructor
          · intro hc
            simp only [AsyncDemo.status] at hc
            cases hc
          · rintro ⟨d', hd', -, hend⟩
            injection hd' with hd'
            subst hd'
            have := hr.mpr hend
            rw [hp] at this
            simp at this
  · cases st
    case ready =>
      simp [infer_async, AsyncDemo.status]
    case encoder_infer =>
      cases encDone <;> simp [infer_async, AsyncDemo.status]
    case decoder_infer d =>
      cases decDone
      · simp [infer_async, AsyncDemo.status]
      · simp only [infer_async, Bool.true_eq_false, not_true_eq_false, if_neg, if_false]
        rcases hp : process_decoding_results dec endTok d with ⟨d1, r⟩
        cases r with
        | some v => simp [AsyncDemo.status]
        | none => simp [AsyncDemo.status]

/-- Witness for C7: completing the encoder request moves the machine from
encoder_infer to decoder_infer seeded with the encoder outputs and the start
token. -/
theorem C7_witness :
    (infer_async (R := Nat) (H := Nat) (C := Nat) (O := Nat)
      (fun _ _ _ _ _ => ⟨0, 0, 0, [(3 : Int), 7]⟩) 0 1 true ⟨10, 11, 12, 13⟩ false
      .encoder_infer).1 =
      .decoder_infer
        { row_enc_out := 10, dec_states_h := 11, dec_states_c := 12,
          output := 13, tgt := 0, logits := [] } :=
  (C7_async_state_machine (R := Nat) (H := Nat) (C := Nat) (O := Nat)
    (fun _ _ _ _ _ => ⟨0, 0, 0, [(3 : Int), 7]⟩) 0 1 true ⟨10, 11, 12, 13⟩ false
    .encoder_infer).2.2.2.1 rfl rfl

/-! ### Path resolution lemmas (towards C3) -/

theorem env_foldl_preserve (env : String → Option String) :
    ∀ (pairs : List (String × String)) (args : Entry) (a : String),
      (∀ q ∈ pairs, q.1 ≠ a) →
      pyGet (pairs.foldl (fun acc p =>
        if pyGet acc p.1 = .vnone then
          match env p.2 with
          | some v => dset acc p.1 (.vpath (parsePPath v))
          | none => acc
        else acc) args) a = pyGet args a := by
  intro pairs
  induction pairs with
  | nil => intro args a _; rfl
  | cons q rest ih =>
    intro args a hne
    rw [List.foldl_cons]
    rw [ih _ a (fun r hr => hne r (List.mem_cons_of_mem _ hr))]
    by_cases hq : pyGet args q.1 = .vnone
    · rw [if_pos hq]
      cases henv : env q.2 with
      | some v =>
        unfold pyGet
        rw [dget_dset_ne _ _ _ _ (hne q (List.mem_cons_self q rest))]
      | none => rfl
    · rw [if_neg hq]

theorem env_foldl_lemma (env : String → Option String) :
    ∀ (pairs : List (String × String)) (args : Entry) (a ev s : String),
      (pairs.map Prod.fst).Nodup → (a, ev) ∈ pairs →
      pyGet args a = .vnone → env ev = some s →
      pyGet (pairs.foldl (fun acc p =>
        if pyGet acc p.1 = .vnone then
          match env p.2 with
          | some v => dset acc p.1 (.vpath (parsePPath v))
          | none => acc
        else acc) args) a = .vpath (parsePPath s) := by
  intro pairs
  induction pairs with
  | nil =>
    intro args a ev s _ hmem
    cases hmem
  | cons q rest ih =>
    intro args a ev s hnd hmem hnone henv
    rw [List.map_cons, List.nodup_cons] at hnd
    rw [List.foldl_cons]
    rcases List.mem_cons.mp hmem with rfl | hmr
    · have hrest : ∀ r ∈ rest, r.1 ≠ a := by
        intro r hr hra
        apply hnd.1
        have hm := List.mem_map_of_mem Prod.fst hr
        rwa [hra] at hm
      rw [env_foldl_preserve env rest _ a hrest]
      simp only [if_pos hnone, henv]
      unfold pyGet
      rw [dget_dset_self]
      rfl
    · have hqa : q.1 ≠ a := by
        intro hqa
        apply hnd.1
        rw [hqa]
        exact List.mem_map_of_mem Prod.fst hmr
      have hpres : pyGet (if pyGet args q.1 = .vnone then
          match env q.2 with
          | some v => dset args q.1 (.vpath (parsePPath v))
          | none => args
        else args) a = .vnone := by
        by_cases hq : pyGet args q.1 = .vnone
        · rw [if_pos hq]
          cases henv2 : env q.2 with
          | some v =>
            unfold pyGet
            rw [dget_dset_ne _ _ _ _ hqa]
            exact hnone
          | none => exact hnone
        · rw [if_neg hq]
          exact hnone
      exact ih _ a ev s hnd.2 hmr hpres henv

/-! ### Claim C3 -/

/-- C3: for a path-valued config field, resolution leaves an absolute path
unchanged; a relative path is prefixed with the directory given by the
matching command-line argument; when that argument is absent or `None`, the
value of the corresponding environment variable (`DATA_DIR`,
`ANNOTATIONS_DIR`, `MODELS_DIR`, `EXTENSIONS_DIR`, `MODEL_ATTRIBUTES_DIR`,
`KALDI_BIN_DIR`) is installed into the arguments instead; and when the
selected argument is not a directory and not in `ALLOW_FILE_OR_DIR`, a
`ConfigError` is raised. -/
theorem C3_path_resolution (fs : FS) (args value : Entry) (value_id : Nat)
    (field a : String) (fv : Value) (p : PPath)
    (hfv : dget value field = some fv) (hp : toPPath fv = some p) :
    (p.abs = true →
      merge_entry_field fs args value_id value field (.one a) =
        .ok (dset value field (.vpath p)))
    ∧ (p.abs = false →
      ∀ d : PPath, pyGet args a = .vpath d → fs.isDir d = true →
        merge_entry_field fs args value_id value field (.one a) =
          .ok (dset value field (.vpath (d.join p))))
    ∧ (p.abs = false →
      ∀ d : PPath, pyGet args a = .vpath d → fs.isDir d = false →
        a ∉ ALLOW_FILE_OR_DIR →
        merge_entry_field fs args value_id value field (.one a) =
          .error (.configError "argument should be a directory"))
    ∧ (∀ (ev s : String) (env : String → Option String),
      pyGet args a = .vnone → (a, ev) ∈ COMMAND_LINE_ARGS_AS_ENV_VARS →
      env ev = some s →
      pyGet (merge_paths_env env args) a = .vpath (parsePPath s)) := by
  refine ⟨?_, ?_, ?_, ?_⟩
  · intro habs
    unfold merge_entry_field
    simp only [hfv, hp]
    rw [if_pos habs]
  · intro habs d hd hdir
    unfold merge_entry_field
    simp only [hfv, hp]
    rw [if_neg (by rw [habs]; exact Bool.false_ne_true)]
    have hloop : arg_candidates_loop fs args value_id p [a] none = .ok (some d) := by
      unfold arg_candidates_loop
      rw [hd]
      simp only [pyTruthy, not_true_eq_false, if_false]
      have hsel : select_arg_path (.vpath d) value_id = .ok d := rfl
      rw [hsel]
      simp only [except_bind_ok, hdir, if_pos]
      by_cases hex : fs.isPresent (d.join p)
      · rw [if_pos hex]
      · rw [if_neg hex]
        rfl
    simp only [ArgSpec.toList]
    rw [hloop]
    rfl
  · intro habs d hd hdir hnall
    unfold merge_entry_field
    simp only [hfv, hp]
    rw [if_neg (by rw [habs]; exact Bool.false_ne_true)]
    have hcont : ALLOW_FILE_OR_DIR.contains a = false := by
      cases hc : ALLOW_FILE_OR_DIR.contains a
      · rfl
      · exact absurd (by simpa [ALLOW_FILE_OR_DIR] using hc) hnall
    have hloop : arg_candidates_loop fs args value_id p [a] none =
        .error (.configError "argument should be a directory") := by
      unfold arg_candidates_loop
      rw [hd]
      simp only [pyTruthy, not_true_eq_false, if_false]
      have hsel : select_arg_path (.vpath d) value_id = .ok d := rfl
      rw [hsel]
      simp only [except_bind_ok, hdir, Bool.false_eq_true, if_false, hcont]
      rfl
    simp only [ArgSpec.toList]
    rw [hloop]
    rfl
  · intro ev s env hnone hmem henv
    unfold merge_paths_env
    exact env_foldl_lemma env COMMAND_LINE_ARGS_AS_ENV_VARS args a ev s
      (by decide) hmem hnone henv

/-- Witness for C3: a relative `data_source` path joined under the `source`
argument directory, and the `DATA_DIR` fallback when `source` is absent. -/
theorem C3_witness :
    merge_entry_field ⟨fun _ => true, fun _ => false⟩
      [("source", Value.vpath ⟨true, ["data"]⟩)]
      0 [("data_source", Value.vpath ⟨false, ["images"]⟩)] "data_source" (.one "source") =
      .ok (dset [("data_source", Value.vpath ⟨false, ["images"]⟩)] "data_source"
        (.vpath (PPath.join ⟨true, ["data"]⟩ ⟨false, ["images"]⟩)))
    ∧ pyGet (merge_paths_env (fun _ => some "envdata") []) "source" =
        .vpath (parsePPath "envdata") := by
  constructor
  · exact (C3_path_resolution ⟨fun _ => true, fun _ => false⟩
      [("source", Value.vpath ⟨true, ["data"]⟩)] [("data_source", Value.vpath ⟨false, ["images"]⟩)]
      0 "data_source" "source" (Value.vpath ⟨false, ["images"]⟩) ⟨false, ["images"]⟩
      (by decide) rfl).2.1 rfl ⟨true, ["data"]⟩ (by decide) rfl
  · exact (C3_path_resolution ⟨fun _ => true, fun _ => false⟩ []
      [("data_source", Value.vpath ⟨false, ["images"]⟩)]
      0 "data_source" "source" (Value.vpath ⟨false, ["images"]⟩) ⟨false, ["images"]⟩
      (by decide) rfl).2.2.2 "DATA_DIR" "envdata" (fun _ => some "envdata") rfl
      (by decide) rfl

/-! ### Heap frame lemmas (C8) -/

theorem heap_get?_lt {h : Heap} {i : Nat} {o : Obj} (hg : h.get? i = some o) :
    i < h.size :=
  (List.get?_eq_some.mp hg).1

theorem heap_get?_mem {h : Heap} {i : Nat} {o : Obj} (hg : h.get? i = some o) :
    o ∈ h.store := by
  obtain ⟨hlt, hget⟩ := List.get?_eq_some.mp hg
  exact hget ▸ List.get_mem h.store i hlt

theorem heap_alloc_size (h : Heap) (o : Obj) : (h.alloc o).1.size = h.size + 1 := by
  simp [Heap.alloc, Heap.size]

theorem heap_alloc_ref (h : Heap) (o : Obj) : (h.alloc o).2 = h.size := rfl

theorem heap_alloc_get?_lt {h : Heap} {i : Nat} (o : Obj) (hi : i < h.size) :
    (h.alloc o).1.get? i = h.get? i := by
  simp only [Heap.alloc, Heap.get?, List.get?_eq_getElem?]
  rw [List.getElem?_append_left hi]

theorem heap_alloc_get?_cases {h : Heap} {o : Obj} {i : Nat} {o' : Obj}
    (hg : (h.alloc o).1.get? i = some o') :
    h.get? i = some o' ∨ (i = h.size ∧ o' = o) := by
  by_cases hi : i < h.size
  · left
    rw [← heap_alloc_get?_lt o hi]
    exact hg
  · right
    have hlt := heap_get?_lt hg
    rw [heap_alloc_size] at hlt
    have hie : i = h.size := by omega
    subst hie
    refine ⟨rfl, ?_⟩
    have hself : (h.alloc o).1.get? h.size = some o := by
      simp [Heap.alloc, Heap.get?, Heap.size, List.get?_eq_getElem?]
    rw [hself] at hg
    exact (Option.some.inj hg).symm

theorem heap_write_size (h : Heap) (r : Nat) (o : Obj) :
    (h.write r o).size = h.size := by
  simp [Heap.write, Heap.size]

theorem heap_write_get?_ne {h : Heap} {r i : Nat} (o : Obj) (hne : i ≠ r) :
    (h.write r o).get? i = h.get? i := by
  simp only [Heap.write, Heap.get?, List.get?_eq_getElem?]
  rw [List.getElem?_set_ne (Ne.symm hne)]

theorem heap_write_get?_cases {h : Heap} {r : Nat} {o : Obj} {i : Nat} {o' : Obj}
    (hg : (h.write r o).get? i = some o') :
    h.get? i = some o' ∨ (i = r ∧ o' = o) := by
  by_cases hir : i = r
  · subst hir
    right
    refine ⟨rfl, ?_⟩
    have hlt := heap_get?_lt hg
    rw [heap_write_size] at hlt
    have hg' := hg
    simp only [Heap.write, Heap.get?, List.get?_eq_getElem?] at hg'
    rw [List.getElem?_set_self (by simpa [Heap.size] using hlt)] at hg'
    exact (Option.some.inj hg').symm
  · left
    rw [← heap_write_get?_ne o hir]
    exact hg

theorem frame_refl {n : Nat} {h : Heap} (hreg : regionHi n h) : Frame n h h :=
  ⟨le_refl _, fun _ _ => rfl, hreg⟩

theorem frame_trans {n : Nat} {h1 h2 h3 : Heap}
    (a : Frame n h1 h2) (b : Frame n h2 h3) : Frame n h1 h3 :=
  ⟨le_trans a.1 b.1, fun i hi => (b.2.1 i hi).trans (a.2.1 i hi), b.2.2⟩

theorem frame_alloc {n : Nat} {h : Heap} {o : Obj} (hn : n ≤ h.size)
    (hreg : regionHi n h) (ho : ∀ r ∈ objRefs o, n ≤ r) :
    Frame n h (h.alloc o).1 ∧ n ≤ (h.alloc o).2 := by
  refine ⟨⟨?_, ?_, ?_⟩, ?_⟩
  · rw [heap_alloc_size]
    omega
  · intro i hi
    exact heap_alloc_get?_lt o (by omega)
  · intro i oo hi hg r hr
    rcases heap_alloc_get?_cases hg with hold | ⟨_, hoo⟩
    · exact hreg i oo hi hold r hr
    · subst hoo
      exact ho r hr
  · rw [heap_alloc_ref]
    exact hn

theorem frame_write {n : Nat} {h : Heap} {r : Nat} {o : Obj}
    (hreg : regionHi n h) (hr : n ≤ r) (ho : ∀ x ∈ objRefs o, n ≤ x) :
    Frame n h (h.write r o) := by
  refine ⟨?_, ?_, ?_⟩
  · rw [heap_write_size]
  · intro i hi
    exact heap_write_get?_ne o (by omega)
  · intro i oo hi hg x hx
    rcases heap_write_get?_cases hg with hold | ⟨hie, hoo⟩
    · exact hreg i oo hi hold x hx
    · subst hie
      subst hoo
      exact ho x hx

theorem regionHi_size (h : Heap) : regionHi h.size h := by
  intro i o hi hg
  exact absurd (heap_get?_lt hg) (by omega)

theorem hDictGet_region {n : Nat} {h : Heap} {r : Nat} {k : String} {v : Nat}
    (hreg : regionHi n h) (hr : n ≤ r) (hg : hDictGet h r k = some v) : n ≤ v := by
  unfold hDictGet at hg
  cases hget : h.get? r with
  | none =>
    rw [hget] at hg
    exact Option.noConfusion hg
  | some o =>
    cases o with
    | prim p =>
      simp only [hget, Option.bind_eq_bind, Option.some_bind] at hg
      exact Option.noConfusion hg
    | list es =>
      simp only [hget, Option.bind_eq_bind, Option.some_bind] at hg
      exact Option.noConfusion hg
    | dict fs =>
      simp only [hget, Option.bind_eq_bind, Option.some_bind] at hg
      cases hf : fs.find? (fun p => p.1 = k) with
      | none => rw [hf] at hg; cases hg
      | some p =>
        rw [hf] at hg
        have hmem := List.mem_of_find?_eq_some hf
        have hv : p.2 = v := by simpa using hg
        subst hv
        exact hreg r (.dict fs) hr hget p.2 (List.mem_map_of_mem Prod.snd hmem)

theorem hDictGetOpt_region {n : Nat} {h : Heap} {r : Nat} {k : String} {v : Nat}
    (hreg : regionHi n h) (hr : n ≤ r) (hg : hDictGetOpt h r k = some (some v)) :
    n ≤ v := by
  unfold hDictGetOpt at hg
  cases hget : h.get? r with
  | none =>
    rw [hget] at hg
    exact Option.noConfusion hg
  | some o =>
    cases o with
    | prim p =>
      simp only [hget, Option.bind_eq_bind, Option.some_bind] at hg
      exact Option.noConfusion hg
    | list es =>
      simp only [hget, Option.bind_eq_bind, Option.some_bind] at hg
      exact Option.noConfusion hg
    | dict fs =>
      simp only [hget, Option.bind_eq_bind, Option.some_bind] at hg
      cases hf : fs.find? (fun p => p.1 = k) with
      | none => rw [hf] at hg; simp at hg
      | some p =>
        rw [hf] at hg
        have hmem := List.mem_of_find?_eq_some hf
        have hv : p.2 = v := by simpa using hg
        subst hv
        exact hreg r (.dict fs) hr hget p.2 (List.mem_map_of_mem Prod.snd hmem)

theorem hListElems_region {n : Nat} {h : Heap} {r : Nat} {es : List Nat}
    (hreg : regionHi n h) (hr : n ≤ r) (hg : hListElems h r = some es) :
    ∀ e ∈ es, n ≤ e := by
  unfold hListElems at hg
  cases hget : h.get? r with
  | none =>
    rw [hget] at hg
    exact Option.noConfusion hg
  | some o =>
    cases o with
    | prim p =>
      simp only [hget, Option.bind_eq_bind, Option.some_bind] at hg
      exact Option.noConfusion hg
    | list es' =>
      simp only [hget, Option.bind_eq_bind, Option.some_bind] at hg
      have hes : es' = es := by simpa using hg
      subst hes
      exact hreg r (.list es') hr hget
    | dict fs =>
      simp only [hget, Option.bind_eq_bind, Option.some_bind] at hg
      exact Option.noConfusion hg

theorem deepcopy_frame_all {n : Nat} : ∀ fuel : Nat,
    (∀ h r h2 r2, n ≤ h.size → regionHi n h →
      deepcopy fuel h r = some (h2, r2) → Frame n h h2 ∧ n ≤ r2) ∧
    (∀ h es h2 es2, n ≤ h.size → regionHi n h →
      deepcopyList fuel h es = some (h2, es2) →
      Frame n h h2 ∧ ∀ e ∈ es2, n ≤ e) ∧
    (∀ h fs h2 fs2, n ≤ h.size → regionHi n h →
      deepcopyDict fuel h fs = some (h2, fs2) →
      Frame n h h2 ∧ ∀ p ∈ fs2, n ≤ p.2) := by
  intro fuel
  induction fuel with
  | zero =>
    refine ⟨?_, ?_, ?_⟩
    · intro h r h2 r2 _ _ hrun
      cases hrun
    · intro h es h2 es2 _ _ hrun
      cases hrun
    · intro h fs h2 fs2 _ _ hrun
      cases hrun
  | succ fuel ih =>
    obtain ⟨ihv, ihl, ihd⟩ := ih
    refine ⟨?_, ?_, ?_⟩
    · intro h r h2 r2 hn hreg hrun
      rw [deepcopy] at hrun
      cases hget : h.get? r with
      | none => rw [hget] at hrun; cases hrun
      | some o =>
        cases o with
        | prim p =>
          rw [hget] at hrun
          cases hrun
          exact frame_alloc hn hreg (by intro x hx; cases hx)
        | list es =>
          rw [hget] at hrun
          cases hdl : deepcopyList fuel h es with
          | none =>
            simp only [hdl, Option.bind_eq_bind, Option.none_bind] at hrun
            exact Option.noConfusion hrun
          | some q =>
            obtain ⟨h1, es1⟩ := q
            simp only [hdl, Option.bind_eq_bind, Option.some_bind] at hrun
            cases hrun
            obtain ⟨hf1, hes1⟩ := ihl h es h1 es1 hn hreg hdl
            have hrefs : ∀ x ∈ objRefs (Obj.list es1), n ≤ x := hes1
            obtain ⟨hf2, hr2⟩ := frame_alloc (le_trans hn hf1.1) hf1.2.2 hrefs
            exact ⟨frame_trans hf1 hf2, hr2⟩
        | dict fs =>
          rw [hget] at hrun
          cases hdd : deepcopyDict fuel h fs with
          | none =>
            simp only [hdd, Option.bind_eq_bind, Option.none_bind] at hrun
            exact Option.noConfusion hrun
          | some q =>
            obtain ⟨h1, fs1⟩ := q
            simp only [hdd, Option.bind_eq_bind, Option.some_bind] at hrun
            cases hrun
            obtain ⟨hf1, hfs1⟩ := ihd h fs h1 fs1 hn hreg hdd
            have hrefs : ∀ x ∈ objRefs (.dict fs1), n ≤ x := by
              intro x hx
              simp only [objRefs, List.mem_map] at hx
              obtain ⟨p, hp, hpx⟩ := hx
              exact hpx ▸ hfs1 p hp
            obtain ⟨hf2, hr2⟩ := frame_alloc (le_trans hn hf1.1) hf1.2.2 hrefs
            exact ⟨frame_trans hf1 hf2, hr2⟩
    · intro h es h2 es2 hn hreg hrun
      induction es generalizing h h2 es2 with
      | nil =>
        rw [deepcopyList] at hrun
        cases hrun
        exact ⟨frame_refl hreg, by simp⟩
      | cons e es ihes =>
        rw [deepcopyList] at hrun
        cases hde : deepcopy fuel h e with
        | none =>
          simp only [hde, Option.bind_eq_bind, Option.none_bind] at hrun
          exact Option.noConfusion hrun
        | some p =>
          obtain ⟨h1, r1⟩ := p
          simp only [hde, Option.bind_eq_bind, Option.some_bind] at hrun
          cases hdes : deepcopyList fuel h1 es with
          | none =>
            simp only [hdes, Option.bind_eq_bind, Option.none_bind] at hrun
            exact Option.noConfusion hrun
          | some q =>
            obtain ⟨hq, rs⟩ := q
            simp only [hdes, Option.bind_eq_bind, Option.some_bind] at hrun
            cases hrun
            obtain ⟨hf1, hr1⟩ := ihv h e h1 r1 hn hreg hde
            obtain ⟨hf2, hrs⟩ :=
              ihl h1 es _ _ (le_trans hn hf1.1) hf1.2.2 hdes
            refine ⟨frame_trans hf1 hf2, ?_⟩
            intro x hx
            rcases List.mem_cons.mp hx with hx1 | hx2
            · exact hx1 ▸ hr1
            · exact hrs x hx2
    · intro h fs h2 fs2 hn hreg hrun
      induction fs generalizing h h2 fs2 with
      | nil =>
        rw [deepcopyDict] at hrun
        cases hrun
        exact ⟨frame_refl hreg, by simp⟩
      | cons kf fs ihfs =>
        obtain ⟨k, e⟩ := kf
        rw [deepcopyDict] at hrun
        cases hde : deepcopy fuel h e with
        | none =>
          simp only [hde, Option.bind_eq_bind, Option.none_bind] at hrun
          exact Option.noConfusion hrun
        | some p =>
          obtain ⟨h1, r1⟩ := p
          simp only [hde, Option.bind_eq_bind, Option.some_bind] at hrun
          cases hdfs : deepcopyDict fuel h1 fs with
          | none =>
            simp only [hdfs, Option.bind_eq_bind, Option.none_bind] at hrun
            exact Option.noConfusion hrun
          | some q =>
            obtain ⟨hq, rs⟩ := q
            simp only [hdfs, Option.bind_eq_bind, Option.some_bind] at hrun
            cases hrun
            obtain ⟨hf1, hr1⟩ := ihv h e h1 r1 hn hreg hde
            obtain ⟨hf2, hrs⟩ :=
              ihd h1 fs _ _ (le_trans hn hf1.1) hf1.2.2 hdfs
            refine ⟨frame_trans hf1 hf2, ?_⟩
            intro x hx
            rcases List.mem_cons.mp hx with hx1 | hx2
            · exact hx1 ▸ hr1
            · exact hrs x hx2

theorem deepcopy_frame {n : Nat} {fuel : Nat} {h : Heap} {r : Nat} {h2 : Heap}
    {r2 : Nat} (hn : n ≤ h.size) (hreg : regionHi n h)
    (hrun : deepcopy fuel h r = some (h2, r2)) : Frame n h h2 ∧ n ≤ r2 :=
  (deepcopy_frame_all fuel).1 h r h2 r2 hn hreg hrun

theorem hDictSet_frame {n : Nat} {h : Heap} {r : Nat} {k : String} {v : Nat}
    {h2 : Heap} (hreg : regionHi n h) (hr : n ≤ r) (hv : n ≤ v)
    (hrun : hDictSet h r k v = some h2) : Frame n h h2 := by
  unfold hDictSet at hrun
  cases hget : h.get? r with
  | none =>
    rw [hget] at hrun
    exact Option.noConfusion hrun
  | some o =>
    cases o with
    | prim p =>
      simp only [hget, Option.bind_eq_bind, Option.some_bind] at hrun
      exact Option.noConfusion hrun
    | list es =>
      simp only [hget, Option.bind_eq_bind, Option.some_bind] at hrun
      exact Option.noConfusion hrun
    | dict fs =>
      simp only [hget, Option.bind_eq_bind, Option.some_bind] at hrun
      have hfs : ∀ p ∈ fs, n ≤ p.2 := by
        intro p hp
        exact hreg r (.dict fs) hr hget p.2 (List.mem_map_of_mem Prod.snd hp)
      cases hrun
      by_cases hany : fs.any (fun p => p.1 = k)
      · rw [if_pos hany]
        refine frame_write hreg hr ?_
        intro x hx
        simp only [objRefs, List.mem_map] at hx
        obtain ⟨p, hp, hpx⟩ := hx
        obtain ⟨q, hq, hqp⟩ := hp
        by_cases hqk : q.1 = k
        · rw [if_pos hqk] at hqp
          subst hqp
          exact hpx ▸ hv
        · rw [if_neg hqk] at hqp
          subst hqp
          exact hpx ▸ hfs q hq
      · rw [if_neg hany]
        refine frame_write hreg hr ?_
        intro x hx
        simp only [objRefs, List.mem_map, List.mem_append] at hx
        obtain ⟨p, hp | hp, hpx⟩ := hx
        · exact hpx ▸ hfs p hp
        · have : p = (k, v) := by simpa using hp
          subst this
          exact hpx ▸ hv

theorem hListSet_frame {n : Nat} {h : Heap} {r i v : Nat} {h2 : Heap}
    (hreg : regionHi n h) (hr : n ≤ r) (hv : n ≤ v)
    (hrun : hListSet h r i v = some h2) : Frame n h h2 := by
  unfold hListSet at hrun
  cases hget : h.get? r with
  | none =>
    rw [hget] at hrun
    exact Option.noConfusion hrun
  | some o =>
    cases o with
    | prim p =>
      simp only [hget, Option.bind_eq_bind, Option.some_bind] at hrun
      exact Option.noConfusion hrun
    | dict fs =>
      simp only [hget, Option.bind_eq_bind, Option.some_bind] at hrun
      exact Option.noConfusion hrun
    | list es =>
      simp only [hget, Option.bind_eq_bind, Option.some_bind] at hrun
      have hes : ∀ e ∈ es, n ≤ e := hreg r (.list es) hr hget
      split at hrun
      · cases hrun
        refine frame_write hreg hr ?_
        intro x hx
        simp only [objRefs] at hx
        rcases List.mem_or_eq_of_mem_set hx with hx1 | hx2
        · exact hes x hx1
        · exact hx2 ▸ hv
      · exact Option.noConfusion hrun

theorem hSetFields_frame {n : Nat} {cref : Nat} :
    ∀ (lfs : List (String × Nat)) (h h2 : Heap), regionHi n h → n ≤ cref →
      (∀ p ∈ lfs, n ≤ p.2) → hSetFields h cref lfs = some h2 → Frame n h h2 := by
  intro lfs
  induction lfs with
  | nil =>
    intro h h2 hreg hc _ hrun
    cases hrun
    exact frame_refl hreg
  | cons kv rest ih =>
    obtain ⟨k, v⟩ := kv
    intro h h2 hreg hc hb hrun
    rw [hSetFields] at hrun
    cases hds : hDictSet h cref k v with
    | none =>
      simp only [hds, Option.bind_eq_bind, Option.none_bind] at hrun
      exact Option.noConfusion hrun
    | some h1 =>
      simp only [hds, Option.bind_eq_bind, Option.some_bind] at hrun
      have hf1 : Frame n h h1 :=
        hDictSet_frame hreg hc (hb (k, v) (List.mem_cons_self _ _)) hds
      have hf2 : Frame n h1 h2 :=
        ih h1 h2 hf1.2.2 hc (fun p hp => hb p (List.mem_cons_of_mem _ hp)) hrun
      exact frame_trans hf1 hf2

theorem hMergeByIdentifier_frame {n fuel : Nat} {h : Heap} {grefs : List Nat}
    {lref : Nat} {ident : String} {h2 : Heap} {r2 : Nat}
    (hn : n ≤ h.size) (hreg : regionHi n h) (hl : n ≤ lref)
    (hrun : hMergeByIdentifier fuel h grefs lref ident = some (h2, r2)) :
    Frame n h h2 ∧ n ≤ r2 := by
  unfold hMergeByIdentifier at hrun
  cases hlio : hDictGetOpt h lref ident with
  | none =>
    simp only [hlio, Option.bind_eq_bind, Option.none_bind] at hrun
    exact Option.noConfusion hrun
  | some lio =>
    simp only [hlio, Option.bind_eq_bind, Option.some_bind] at hrun
    cases lio with
    | none =>
      simp only [Option.bind_eq_bind, Option.some_bind, if_pos] at hrun
      cases hrun
      exact ⟨frame_refl hreg, hl⟩
    | some ir =>
      cases hisn : hIsNone h ir with
      | none =>
        simp only [hisn, Option.bind_eq_bind, Option.none_bind] at hrun
        exact Option.noConfusion hrun
      | some b =>
        simp only [hisn, Option.bind_eq_bind, Option.some_bind] at hrun
        cases b with
        | true =>
          rw [if_pos rfl] at hrun
          cases hrun
          exact ⟨frame_refl hreg, hl⟩
        | false =>
          rw [if_neg Bool.false_ne_true] at hrun
          cases hli : readValue fuel h ir with
          | none =>
            simp only [hli, Option.bind_eq_bind, Option.none_bind] at hrun
            exact Option.noConfusion hrun
          | some li =>
            simp only [hli, Option.bind_eq_bind, Option.some_bind] at hrun
            cases hm : hFindMatch fuel h ident li grefs with
            | none =>
              simp only [hm, Option.bind_eq_bind, Option.none_bind] at hrun
              exact Option.noConfusion hrun
            | some mtch =>
              simp only [hm, Option.bind_eq_bind, Option.some_bind] at hrun
              cases mtch with
              | some g =>
                cases hdc : deepcopy fuel h g with
                | none =>
                  simp only [hdc, Option.bind_eq_bind, Option.none_bind] at hrun
                  exact Option.noConfusion hrun
                | some p =>
                  obtain ⟨h1, cref⟩ := p
                  simp only [hdc, Option.bind_eq_bind, Option.some_bind] at hrun
                  obtain ⟨hf1, hcref⟩ := deepcopy_frame hn hreg hdc
                  cases hget1 : h1.get? lref with
                  | none =>
                    rw [hget1] at hrun
                    exact Option.noConfusion hrun
                  | some o =>
                    cases o with
                    | prim pp =>
                      simp only [hget1, Option.bind_eq_bind, Option.some_bind] at hrun
                      exact Option.noConfusion hrun
                    | list es =>
                      simp only [hget1, Option.bind_eq_bind, Option.some_bind] at hrun
                      exact Option.noConfusion hrun
                    | dict lfs =>
                      simp only [hget1, Option.bind_eq_bind, Option.some_bind] at hrun
                      cases hsf : hSetFields h1 cref lfs with
                      | none =>
                        simp only [hsf, Option.bind_eq_bind, Option.none_bind] at hrun
                        exact Option.noConfusion hrun
                      | some hh =>
                        simp only [hsf, Option.bind_eq_bind, Option.some_bind] at hrun
                        have hlfs : ∀ p ∈ lfs, n ≤ p.2 := by
                          intro p hp
                          exact hf1.2.2 lref (.dict lfs) hl hget1 p.2
                            (List.mem_map_of_mem Prod.snd hp)
                        have hf2 : Frame n h1 hh :=
                          hSetFields_frame lfs h1 hh hf1.2.2 hcref hlfs hsf
                        cases hrun
                        exact ⟨frame_trans hf1 hf2, hcref⟩
              | none =>
                simp only [Option.pure_def, Option.bind_eq_bind, Option.some_bind] at hrun
                obtain ⟨hf1, hcref⟩ :=
                  @frame_alloc n h (Obj.dict []) hn hreg (by intro x hx; cases hx)
                cases hget1 : (h.alloc (Obj.dict [])).1.get? lref with
                | none =>
                  rw [hget1] at hrun
                  exact Option.noConfusion hrun
                | some o =>
                  cases o with
                  | prim pp =>
                    simp only [hget1, Option.bind_eq_bind, Option.some_bind] at hrun
                    exact Option.noConfusion hrun
                  | list es =>
                    simp only [hget1, Option.bind_eq_bind, Option.some_bind] at hrun
                    exact Option.noConfusion hrun
                  | dict lfs =>
                    simp only [hget1, Option.bind_eq_bind, Option.some_bind] at hrun
                    cases hsf : hSetFields (h.alloc (Obj.dict [])).1 (h.alloc (Obj.dict [])).2 lfs with
                    | none =>
                      simp only [hsf, Option.bind_eq_bind, Option.none_bind] at hrun
                      exact Option.noConfusion hrun
                    | some hh =>
                      simp only [hsf, Option.bind_eq_bind, Option.some_bind] at hrun
                      have hlfs : ∀ p ∈ lfs, n ≤ p.2 := by
                        intro p hp
                        exact hf1.2.2 lref (.dict lfs) hl hget1 p.2
                          (List.mem_map_of_mem Prod.snd hp)
                      have hf2 : Frame n (h.alloc (Obj.dict [])).1 hh :=
                        hSetFields_frame lfs _ hh hf1.2.2 hcref hlfs hsf
                      cases hrun
                      exact ⟨frame_trans hf1 hf2, hcref⟩

theorem hMergeElems_frame {n fuel : Nat} {grefs : List Nat} {listRef : Nat}
    {ident : String} :
    ∀ (es : List Nat) (i : Nat) (h h2 : Heap), n ≤ h.size → regionHi n h →
      n ≤ listRef → (∀ e ∈ es, n ≤ e) →
      hMergeElems fuel h grefs listRef ident i es = some h2 → Frame n h h2 := by
  intro es
  induction es with
  | nil =>
    intro i h h2 _ hreg _ _ hrun
    cases hrun
    exact frame_refl hreg
  | cons e es ih =>
    intro i h h2 hn hreg hlr hb hrun
    rw [hMergeElems] at hrun
    cases hmb : hMergeByIdentifier fuel h grefs e ident with
    | none =>
      simp only [hmb, Option.bind_eq_bind, Option.none_bind] at hrun
      exact Option.noConfusion hrun
    | some p =>
      obtain ⟨h1, r1⟩ := p
      simp only [hmb, Option.bind_eq_bind, Option.some_bind] at hrun
      obtain ⟨hf1, hr1⟩ :=
        hMergeByIdentifier_frame hn hreg (hb e (List.mem_cons_self _ _)) hmb
      cases hls : hListSet h1 listRef i r1 with
      | none =>
        simp only [hls, Option.bind_eq_bind, Option.none_bind] at hrun
        exact Option.noConfusion hrun
      | some hh =>
        simp only [hls, Option.bind_eq_bind, Option.some_bind] at hrun
        have hf2 : Frame n h1 hh := hListSet_frame hf1.2.2 hlr hr1 hls
        have hf3 : Frame n hh h2 :=
          ih (i + 1) hh h2 (le_trans hn (le_trans hf1.1 hf2.1)) hf2.2.2 hlr
            (fun x hx => hb x (List.mem_cons_of_mem _ hx)) hrun
        exact frame_trans (frame_trans hf1 hf2) hf3

theorem hMergeLaunchers_frame {n fuel : Nat} {gls : List Nat} {lref : Nat}
    {h h2 : Heap} (hn : n ≤ h.size) (hreg : regionHi n h) (hl : n ≤ lref)
    (hrun : hMergeLaunchers fuel h gls lref = some h2) : Frame n h h2 := by
  unfold hMergeLaunchers at hrun
  cases hes : hListElems h lref with
  | none =>
    simp only [hes, Option.bind_eq_bind, Option.none_bind] at hrun
    exact Option.noConfusion hrun
  | some es =>
    simp only [hes, Option.bind_eq_bind, Option.some_bind] at hrun
    exact hMergeElems_frame es 0 h h2 hn hreg hl
      (hListElems_region hreg hl hes) hrun

theorem hMergeDictVals_frame {n fuel : Nat} {grefs : List Nat} {dictRef : Nat}
    {ident : String} :
    ∀ (fs : List (String × Nat)) (h h2 : Heap), n ≤ h.size → regionHi n h →
      n ≤ dictRef → (∀ p ∈ fs, n ≤ p.2) →
      hMergeDictVals fuel h grefs dictRef ident fs = some h2 → Frame n h h2 := by
  intro fs
  induction fs with
  | nil =>
    intro h h2 _ hreg _ _ hrun
    cases hrun
    exact frame_refl hreg
  | cons kv fs ih =>
    obtain ⟨k, e⟩ := kv
    intro h h2 hn hreg hdr hb hrun
    rw [hMergeDictVals] at hrun
    cases hmb : hMergeByIdentifier fuel h grefs e ident with
    | none =>
      simp only [hmb, Option.bind_eq_bind, Option.none_bind] at hrun
      exact Option.noConfusion hrun
    | some p =>
      obtain ⟨h1, r1⟩ := p
      simp only [hmb, Option.bind_eq_bind, Option.some_bind] at hrun
      obtain ⟨hf1, hr1⟩ :=
        hMergeByIdentifier_frame hn hreg (hb (k, e) (List.mem_cons_self _ _)) hmb
      cases hds : hDictSet h1 dictRef k r1 with
      | none =>
        simp only [hds, Option.bind_eq_bind, Option.none_bind] at hrun
        exact Option.noConfusion hrun
      | some hh =>
        simp only [hds, Option.bind_eq_bind, Option.some_bind] at hrun
        have hf2 : Frame n h1 hh := hDictSet_frame hf1.2.2 hdr hr1 hds
        have hf3 : Frame n hh h2 :=
          ih hh h2 (le_trans hn (le_trans hf1.1 hf2.1)) hf2.2.2 hdr
            (fun x hx => hb x (List.mem_cons_of_mem _ hx)) hrun
        exact frame_trans (frame_trans hf1 hf2) hf3

theorem hMergeDatasets_frame {n fuel : Nat} {gds : List Nat} {dref : Nat}
    {h h2 : Heap} (hn : n ≤ h.size) (hreg : regionHi n h) (hd : n ≤ dref)
    (hrun : hMergeDatasets fuel h gds dref = some h2) : Frame n h h2 := by
  unfold hMergeDatasets at hrun
  cases hget : h.get? dref with
  | none =>
    rw [hget] at hrun
    exact Option.noConfusion hrun
  | some o =>
    cases o with
    | prim p =>
      rw [hget] at hrun
      exact Option.noConfusion hrun
    | list es =>
      rw [hget] at hrun
      exact hMergeElems_frame es 0 h h2 hn hreg hd
        (hreg dref (.list es) hd hget) hrun
    | dict fs =>
      rw [hget] at hrun
      refine hMergeDictVals_frame fs h h2 hn hreg hd ?_ hrun
      intro p hp
      exact hreg dref (.dict fs) hd hget p.2 (List.mem_map_of_mem Prod.snd hp)

theorem hMergeModel_frame {n fuel : Nat} {gl gd : Option (List Nat)}
    {modelRef : Nat} {h h2 : Heap} (hn : n ≤ h.size) (hreg : regionHi n h)
    (hm : n ≤ modelRef) (hrun : hMergeModel fuel h gl gd modelRef = some h2) :
    Frame n h h2 := by
  unfold hMergeModel at hrun
  cases gl with
  | none =>
    simp only [Option.pure_def, Option.bind_eq_bind, Option.some_bind] at hrun
    cases gd with
    | none =>
      cases hrun
      exact frame_refl hreg
    | some gds =>
      cases hdg2 : hDictGet h modelRef "datasets" with
      | none =>
        rw [hdg2] at hrun
        exact Option.noConfusion hrun
      | some dref =>
        simp only [hdg2] at hrun
        have hd : n ≤ dref := hDictGet_region hreg hm hdg2
        exact hMergeDatasets_frame hn hreg hd hrun
  | some gls =>
    cases hdg : hDictGet h modelRef "launchers" with
    | none =>
      rw [hdg] at hrun
      simp only [Option.bind_eq_bind, Option.none_bind] at hrun
      exact Option.noConfusion hrun
    | some lref =>
      simp only [hdg, Option.bind_eq_bind, Option.some_bind] at hrun
      cases hml : hMergeLaunchers fuel h gls lref with
      | none =>
        simp only [hml, Option.bind_eq_bind, Option.none_bind] at hrun
        exact Option.noConfusion hrun
      | some h1 =>
        simp only [hml, Option.bind_eq_bind, Option.some_bind] at hrun
        have hf1 : Frame n h h1 :=
          hMergeLaunchers_frame hn hreg (hDictGet_region hreg hm hdg) hml
        cases gd with
        | none =>
          cases hrun
          exact hf1
        | some gds =>
          cases hdg2 : hDictGet h1 modelRef "datasets" with
          | none =>
            rw [hdg2] at hrun
            exact Option.noConfusion hrun
          | some dref =>
            simp only [hdg2] at hrun
            have hd : n ≤ dref := hDictGet_region hf1.2.2 hm hdg2
            exact frame_trans hf1
              (hMergeDatasets_frame (le_trans hn hf1.1) hf1.2.2 hd hrun)

theorem hMergeModels_frame {n fuel : Nat} {gl gd : Option (List Nat)} :
    ∀ (ms : List Nat) (h h2 : Heap), n ≤ h.size → regionHi n h →
      (∀ m ∈ ms, n ≤ m) → hMergeModels fuel h gl gd ms = some h2 →
      Frame n h h2 := by
  intro ms
  induction ms with
  | nil =>
    intro h h2 _ hreg _ hrun
    cases hrun
    exact frame_refl hreg
  | cons m ms ih =>
    intro h h2 hn hreg hb hrun
    rw [hMergeModels] at hrun
    cases hmm : hMergeModel fuel h gl gd m with
    | none =>
      simp only [hmm, Option.bind_eq_bind, Option.none_bind] at hrun
      exact Option.noConfusion hrun
    | some h1 =>
      simp only [hmm, Option.bind_eq_bind, Option.some_bind] at hrun
      have hf1 : Frame n h h1 :=
        hMergeModel_frame hn hreg (hb m (List.mem_cons_self _ _)) hmm
      have hf2 : Frame n h1 h2 :=
        ih h1 h2 (le_trans hn hf1.1) hf1.2.2
          (fun x hx => hb x (List.mem_cons_of_mem _ hx)) hrun
      exact frame_trans hf1 hf2

theorem hMergeEvaluation_frame {n fuel : Nat} {gl gd : Option (List Nat)}
    {evalRef : Nat} {h h2 : Heap} (hn : n ≤ h.size) (hreg : regionHi n h)
    (he : n ≤ evalRef) (hrun : hMergeEvaluation fuel h gl gd evalRef = some h2) :
    Frame n h h2 := by
  unfold hMergeEvaluation at hrun
  cases hmco : hDictGetOpt h evalRef "module_config" with
  | none =>
    simp only [hmco, Option.bind_eq_bind, Option.none_bind] at hrun
    exact Option.noConfusion hrun
  | some mco =>
    simp only [hmco, Option.bind_eq_bind, Option.some_bind] at hrun
    cases mco with
    | none =>
      simp only [Option.pure_def] at hrun
      cases hrun
      exact frame_refl hreg
    | some mcref =>
      dsimp only [] at hrun
      have hmc : n ≤ mcref := hDictGetOpt_region hreg he hmco
      cases hgetmc : h.get? mcref with
      | none =>
        rw [hgetmc] at hrun
        exact Option.noConfusion hrun
      | some o =>
        cases o with
        | prim pp =>
          simp only [hgetmc, Option.bind_eq_bind, Option.some_bind] at hrun
          exact Option.noConfusion hrun
        | list es =>
          simp only [hgetmc, Option.bind_eq_bind, Option.some_bind] at hrun
          exact Option.noConfusion hrun
        | dict mcfs =>
          simp only [hgetmc, Option.bind_eq_bind, Option.some_bind] at hrun
          have hb : ∀ p ∈ mcfs, n ≤ p.2 := by
            intro p hp
            exact hreg mcref (.dict mcfs) hmc hgetmc p.2
              (List.mem_map_of_mem Prod.snd hp)
          cases gl with
          | none =>
            dsimp only [Option.pure_def] at hrun
            cases gd with
            | none =>
              dsimp only [Option.pure_def] at hrun
              cases hrun
              exact frame_refl hreg
            | some gds =>
              simp only [Option.bind_eq_bind, Option.some_bind] at hrun
              by_cases hany2 : mcfs.any (fun p => p.1 = "datasets") = true
              · rw [if_pos hany2] at hrun
                cases hdref : (mcfs.find? (fun p => p.1 = "datasets")).map Prod.snd with
                | none =>
                  rw [hdref] at hrun
                  exact Option.noConfusion hrun
                | some dref =>
                  simp only [hdref] at hrun
                  have hd : n ≤ dref := by
                    obtain ⟨p, hp, hpd⟩ := Option.map_eq_some'.mp hdref
                    exact hpd ▸ hb p (List.mem_of_find?_eq_some hp)
                  exact hMergeDatasets_frame hn hreg hd hrun
              · rw [if_neg hany2] at hrun
                cases hrun
                exact frame_refl hreg
          | some gls =>
            dsimp only [] at hrun
            by_cases hany : mcfs.any (fun p => p.1 = "launchers") = true
            · rw [if_pos hany] at hrun
              cases hlref : (mcfs.find? (fun p => p.1 = "launchers")).map Prod.snd with
              | none =>
                rw [hlref] at hrun
                simp only [Option.bind_eq_bind, Option.none_bind] at hrun
                exact Option.noConfusion hrun
              | some lref =>
                simp only [hlref, Option.bind_eq_bind, Option.some_bind] at hrun
                cases hml : hMergeLaunchers fuel h gls lref with
                | none =>
                  simp only [hml, Option.bind_eq_bind, Option.none_bind] at hrun
                  exact Option.noConfusion hrun
                | some h1 =>
                  simp only [hml, Option.bind_eq_bind, Option.some_bind] at hrun
                  have hlr : n ≤ lref := by
                    obtain ⟨p, hp, hpl⟩ := Option.map_eq_some'.mp hlref
                    exact hpl ▸ hb p (List.mem_of_find?_eq_some hp)
                  have hf1 : Frame n h h1 := hMergeLaunchers_frame hn hreg hlr hml
                  cases gd with
                  | none =>
                    dsimp only [Option.pure_def] at hrun
                    cases hrun
                    exact hf1
                  | some gds =>
                    dsimp only [] at hrun
                    by_cases hany2 : mcfs.any (fun p => p.1 = "datasets") = true
                    · rw [if_pos hany2] at hrun
                      cases hdref : (mcfs.find? (fun p => p.1 = "datasets")).map Prod.snd with
                      | none =>
                        rw [hdref] at hrun
                        exact Option.noConfusion hrun
                      | some dref =>
                        simp only [hdref] at hrun
                        have hd : n ≤ dref := by
                          obtain ⟨p, hp, hpd⟩ := Option.map_eq_some'.mp hdref
                          exact hpd ▸ hb p (List.mem_of_find?_eq_some hp)
                        exact frame_trans hf1 (hMergeDatasets_frame (le_trans hn hf1.1) hf1.2.2 hd hrun)
                    · rw [if_neg hany2] at hrun
                      simp only [Option.pure_def] at hrun
                      cases hrun
                      exact hf1
            · rw [if_neg hany] at hrun
              simp only [Option.pure_def, Option.bind_eq_bind, Option.some_bind] at hrun
              cases gd with
              | none =>
                dsimp only [Option.pure_def] at hrun
                cases hrun
                exact frame_refl hreg
              | some gds =>
                dsimp only [] at hrun
                by_cases hany2 : mcfs.any (fun p => p.1 = "datasets") = true
                · rw [if_pos hany2] at hrun
                  cases hdref : (mcfs.find? (fun p => p.1 = "datasets")).map Prod.snd with
                  | none =>
                    rw [hdref] at hrun
                    exact Option.noConfusion hrun
                  | some dref =>
                    simp only [hdref] at hrun
                    have hd : n ≤ dref := by
                      obtain ⟨p, hp, hpd⟩ := Option.map_eq_some'.mp hdref
                      exact hpd ▸ hb p (List.mem_of_find?_eq_some hp)
                    exact hMergeDatasets_frame hn hreg hd hrun
                · rw [if_neg hany2] at hrun
                  cases hrun
                  exact frame_refl hreg

theorem hMergeEvaluations_frame {n fuel : Nat} {gl gd : Option (List Nat)} :
    ∀ (es : List Nat) (h h2 : Heap), n ≤ h.size → regionHi n h →
      (∀ e ∈ es, n ≤ e) → hMergeEvaluations fuel h gl gd es = some h2 →
      Frame n h h2 := by
  intro es
  induction es with
  | nil =>
    intro h h2 _ hreg _ hrun
    cases hrun
    exact frame_refl hreg
  | cons e es ih =>
    intro h h2 hn hreg hb hrun
    rw [hMergeEvaluations] at hrun
    cases hme : hMergeEvaluation fuel h gl gd e with
    | none =>
      simp only [hme, Option.bind_eq_bind, Option.none_bind] at hrun
      exact Option.noConfusion hrun
    | some h1 =>
      simp only [hme, Option.bind_eq_bind, Option.some_bind] at hrun
      have hf1 : Frame n h h1 :=
        hMergeEvaluation_frame hn hreg (hb e (List.mem_cons_self _ _)) hme
      have hf2 : Frame n h1 h2 :=
        ih h1 h2 (le_trans hn hf1.1) hf1.2.2
          (fun x hx => hb x (List.mem_cons_of_mem _ hx)) hrun
      exact frame_trans hf1 hf2

theorem hMergeModelsConfig_frame {n fuel : Nat} {h : Heap} {g : Option Nat}
    {lref : Nat} {hout : Heap} {rout : Nat} (hn : n ≤ h.size)
    (hreg : regionHi n h)
    (hrun : hMergeModelsConfig fuel h g lref = some (hout, rout)) :
    Frame n h hout ∧ n ≤ rout := by
  unfold hMergeModelsConfig at hrun
  cases hdc : deepcopy fuel h lref with
  | none =>
    simp only [hdc, Option.bind_eq_bind, Option.none_bind] at hrun
    exact Option.noConfusion hrun
  | some p =>
    obtain ⟨h1, cref⟩ := p
    simp only [hdc, Option.bind_eq_bind, Option.some_bind] at hrun
    obtain ⟨hf1, hcref⟩ := deepcopy_frame hn hreg hdc
    cases g with
    | none =>
      dsimp only [Option.pure_def] at hrun
      simp only [Option.bind_eq_bind, Option.some_bind] at hrun
      rw [if_pos Bool.false_ne_true] at hrun
      cases hrun
      exact ⟨hf1, hcref⟩
    | some gg =>
      cases htr : hTruthy h1 gg with
      | none =>
        dsimp only [] at hrun
        simp only [htr, Option.bind_eq_bind, Option.none_bind] at hrun
        exact Option.noConfusion hrun
      | some gt =>
        dsimp only [] at hrun
        simp only [htr, Option.bind_eq_bind, Option.some_bind] at hrun
        cases gt with
        | false =>
          rw [if_pos Bool.false_ne_true] at hrun
          cases hrun
          exact ⟨hf1, hcref⟩
        | true =>
          rw [if_neg (not_not_intro rfl)] at hrun
          cases hgetg : h1.get? gg with
          | none =>
            rw [hgetg] at hrun
            exact Option.noConfusion hrun
          | some o =>
            cases o with
            | prim pp =>
              simp only [hgetg, Option.bind_eq_bind, Option.some_bind] at hrun
              exact Option.noConfusion hrun
            | list es =>
              simp only [hgetg, Option.bind_eq_bind, Option.some_bind] at hrun
              exact Option.noConfusion hrun
            | dict gfs =>
              simp only [hgetg, Option.bind_eq_bind, Option.some_bind] at hrun
              cases hgl : hGlobalElems h1 gfs "launchers" with
              | none =>
                simp only [hgl, Option.bind_eq_bind, Option.none_bind] at hrun
                exact Option.noConfusion hrun
              | some gl =>
                simp only [hgl, Option.bind_eq_bind, Option.some_bind] at hrun
                cases hgd : hGlobalElems h1 gfs "datasets" with
                | none =>
                  simp only [hgd, Option.bind_eq_bind, Option.none_bind] at hrun
                  exact Option.noConfusion hrun
                | some gd =>
                  simp only [hgd, Option.bind_eq_bind, Option.some_bind] at hrun
                  cases hmref : hDictGet h1 cref "models" with
                  | none =>
                    rw [hmref] at hrun
                    exact Option.noConfusion hrun
                  | some mref =>
                    simp only [hmref] at hrun
                    have hmrefn : n ≤ mref := hDictGet_region hf1.2.2 hcref hmref
                    cases hmodels : hListElems h1 mref with
                    | none =>
                      simp only [hmodels, Option.bind_eq_bind, Option.none_bind] at hrun
                      exact Option.noConfusion hrun
                    | some models =>
                      simp only [hmodels, Option.bind_eq_bind, Option.some_bind] at hrun
                      have hmodn : ∀ m ∈ models, n ≤ m :=
                        hListElems_region hf1.2.2 hmrefn hmodels
                      cases hmm : hMergeModels fuel h1 gl gd models with
                      | none =>
                        simp only [hmm, Option.bind_eq_bind, Option.none_bind] at hrun
                        exact Option.noConfusion hrun
                      | some hx =>
                        simp only [hmm, Option.bind_eq_bind, Option.some_bind] at hrun
                        have hf2 : Frame n h1 hx :=
                          hMergeModels_frame models h1 hx (le_trans hn hf1.1)
                            hf1.2.2 hmodn hmm
                        cases hds : hDictSet hx cref "models" mref with
                        | none =>
                          simp only [hds, Option.bind_eq_bind, Option.none_bind] at hrun
                          exact Option.noConfusion hrun
                        | some h3 =>
                          simp only [hds, Option.bind_eq_bind, Option.some_bind] at hrun
                          have hf3 : Frame n hx h3 :=
                            hDictSet_frame hf2.2.2 hcref hmrefn hds
                          cases hrun
                          exact ⟨frame_trans hf1 (frame_trans hf2 hf3), hcref⟩

theorem hMergeModuleConfig_frame {n fuel : Nat} {h : Heap} {g : Option Nat}
    {lref : Nat} {hout : Heap} {rout : Nat} (hn : n ≤ h.size)
    (hreg : regionHi n h)
    (hrun : hMergeModuleConfig fuel h g lref = some (hout, rout)) :
    Frame n h hout ∧ n ≤ rout := by
  unfold hMergeModuleConfig at hrun
  cases hdc : deepcopy fuel h lref with
  | none =>
    simp only [hdc, Option.bind_eq_bind, Option.none_bind] at hrun
    exact Option.noConfusion hrun
  | some p =>
    obtain ⟨h1, cref⟩ := p
    simp only [hdc, Option.bind_eq_bind, Option.some_bind] at hrun
    obtain ⟨hf1, hcref⟩ := deepcopy_frame hn hreg hdc
    cases g with
    | none =>
      dsimp only [Option.pure_def] at hrun
      simp only [Option.bind_eq_bind, Option.some_bind] at hrun
      rw [if_pos Bool.false_ne_true] at hrun
      cases hrun
      exact ⟨hf1, hcref⟩
    | some gg =>
      cases htr : hTruthy h1 gg with
      | none =>
        dsimp only [] at hrun
        simp only [htr, Option.bind_eq_bind, Option.none_bind] at hrun
        exact Option.noConfusion hrun
      | some gt =>
        dsimp only [] at hrun
        simp only [htr, Option.bind_eq_bind, Option.some_bind] at hrun
        cases gt with
        | false =>
          rw [if_pos Bool.false_ne_true] at hrun
          cases hrun
          exact ⟨hf1, hcref⟩
        | true =>
          rw [if_neg (not_not_intro rfl)] at hrun
          cases hgetg : h1.get? gg with
          | none =>
            rw [hgetg] at hrun
            exact Option.noConfusion hrun
          | some o =>
            cases o with
            | prim pp =>
              simp only [hgetg, Option.bind_eq_bind, Option.some_bind] at hrun
              exact Option.noConfusion hrun
            | list es =>
              simp only [hgetg, Option.bind_eq_bind, Option.some_bind] at hrun
              exact Option.noConfusion hrun
            | dict gfs =>
              simp only [hgetg, Option.bind_eq_bind, Option.some_bind] at hrun
              cases hgl : hGlobalElems h1 gfs "launchers" with
              | none =>
                simp only [hgl, Option.bind_eq_bind, Option.none_bind] at hrun
                exact Option.noConfusion hrun
              | some gl =>
                simp only [hgl, Option.bind_eq_bind, Option.some_bind] at hrun
                cases hgd : hGlobalElems h1 gfs "datasets" with
                | none =>
                  simp only [hgd, Option.bind_eq_bind, Option.none_bind] at hrun
                  exact Option.noConfusion hrun
                | some gd =>
                  simp only [hgd, Option.bind_eq_bind, Option.some_bind] at hrun
                  cases heref : hDictGet h1 cref "evaluations" with
                  | none =>
                    rw [heref] at hrun
                    exact Option.noConfusion hrun
                  | some eref =>
                    simp only [heref] at hrun
                    have herefn : n ≤ eref := hDictGet_region hf1.2.2 hcref heref
                    cases hevals : hListElems h1 eref with
                    | none =>
                      simp only [hevals, Option.bind_eq_bind, Option.none_bind] at hrun
                      exact Option.noConfusion hrun
                    | some evals =>
                      simp only [hevals, Option.bind_eq_bind, Option.some_bind] at hrun
                      have hevn : ∀ e ∈ evals, n ≤ e :=
                        hListElems_region hf1.2.2 herefn hevals
                      cases hme : hMergeEvaluations fuel h1 gl gd evals with
                      | none =>
                        simp only [hme, Option.bind_eq_bind, Option.none_bind] at hrun
                        exact Option.noConfusion hrun
                      | some hx =>
                        simp only [hme, Option.bind_eq_bind, Option.some_bind] at hrun
                        have hf2 : Frame n h1 hx :=
                          hMergeEvaluations_frame evals h1 hx (le_trans hn hf1.1)
                            hf1.2.2 hevn hme
                        cases hrun
                        exact ⟨frame_trans hf1 hf2, hcref⟩

theorem readValue_agree {h h2 : Heap}
    (hag : ∀ i, i < h.size → h2.get? i = h.get? i) (hcl : heapClosed h) :
    ∀ fuel : Nat,
      (∀ r, r < h.size → readValue fuel h2 r = readValue fuel h r) ∧
      (∀ es, (∀ e ∈ es, e < h.size) → readList fuel h2 es = readList fuel h es) ∧
      (∀ fs, (∀ p ∈ fs, p.2 < h.size) →
        readDict fuel h2 fs = readDict fuel h fs) := by
  intro fuel
  induction fuel with
  | zero => exact ⟨fun r _ => rfl, fun es _ => rfl, fun fs _ => rfl⟩
  | succ fuel ih =>
    obtain ⟨ihv, ihl, ihd⟩ := ih
    refine ⟨?_, ?_, ?_⟩
    · intro r hr
      cases hget : h.get? r with
      | none => simp only [readValue, hag r hr, hget]
      | some o =>
        cases o with
        | prim p => cases p <;> simp only [readValue, hag r hr, hget]
        | list es =>
          have hmem := heap_get?_mem hget
          have hesb : ∀ e ∈ es, e < h.size := fun e he => hcl _ hmem e he
          simp only [readValue, hag r hr, hget, ihl es hesb]
        | dict fs =>
          have hmem := heap_get?_mem hget
          have hfsb : ∀ p ∈ fs, p.2 < h.size := by
            intro p hp
            exact hcl _ hmem p.2 (List.mem_map_of_mem Prod.snd hp)
          simp only [readValue, hag r hr, hget, ihd fs hfsb]
    · intro es hb
      cases es with
      | nil => rfl
      | cons e es =>
        simp only [readList, ihv e (hb e (List.mem_cons_self _ _)),
          ihl es (fun x hx => hb x (List.mem_cons_of_mem _ hx))]
    · intro fs hb
      cases fs with
      | nil => rfl
      | cons kf fs =>
        obtain ⟨k, e⟩ := kf
        simp only [readDict, ihv e (hb (k, e) (List.mem_cons_self _ _)),
          ihd fs (fun x hx => hb x (List.mem_cons_of_mem _ hx))]

/-- **C8**: `_merge_models_config` and `_merge_module_config` operate on a
deep copy of the local config: whenever the heap-level merge returns, every
cell the caller allocated before the call is unchanged, and in particular
the value of the `local_config` argument reads back exactly as before the
merge. -/
theorem C8_merge_local_config_unchanged (fuel fr : Nat) (h : Heap)
    (g : Option Nat) (lref : Nat) (hcl : heapClosed h) (hl : lref < h.size) :
    (∀ hout rout, hMergeModelsConfig fuel h g lref = some (hout, rout) →
      (∀ i, i < h.size → hout.get? i = h.get? i) ∧
      readValue fr hout lref = readValue fr h lref) ∧
    (∀ hout rout, hMergeModuleConfig fuel h g lref = some (hout, rout) →
      (∀ i, i < h.size → hout.get? i = h.get? i) ∧
      readValue fr hout lref = readValue fr h lref) := by
  refine ⟨?_, ?_⟩
  · intro hout rout hrun
    obtain ⟨hf, _⟩ :=
      hMergeModelsConfig_frame (le_refl h.size) (regionHi_size h) hrun
    exact ⟨hf.2.1, (readValue_agree hf.2.1 hcl fr).1 lref hl⟩
  · intro hout rout hrun
    obtain ⟨hf, _⟩ :=
      hMergeModuleConfig_frame (le_refl h.size) (regionHi_size h) hrun
    exact ⟨hf.2.1, (readValue_agree hf.2.1 hcl fr).1 lref hl⟩

theorem C8_witness :
    heapClosed demoLocalHeap ∧ 8 < demoLocalHeap.size ∧
    demoMergedHeap.get? 8 = demoLocalHeap.get? 8 ∧
    readValue 12 demoMergedHeap 8 = readValue 12 demoLocalHeap 8 :=
  ⟨by decide, by decide,
    ((C8_merge_local_config_unchanged 12 12 demoLocalHeap (some 17) 8
      (by decide) (by decide)).1 demoMergedHeap 26 (by decide)).1 8 (by decide),
    ((C8_merge_local_config_unchanged 12 12 demoLocalHeap (some 17) 8
      (by decide) (by decide)).1 demoMergedHeap 26 (by decide)).2⟩

end OMZ
